import Mathlib

/-!
Verification of the `atomfeed` TypeScript library (RFC 4287 Atom feed
generator).  The definitions below are a shallow embedding of the source
files `src/bcp47.ts`, `src/validators.ts` and the `RawAtomFeed` class
(`RawAtomFeed.ts`): pure functions become Lean functions, mutation of the
feed object becomes explicit state passing, thrown `Error`s become
`Except String`, and JavaScript `Date` objects become `Option Int`
(milliseconds since the epoch, `none` for an invalid date).

Platform primitives that the source calls (`URL` parsing and
`atob`/`btoa`, which are not specified by the repository) are threaded as
an explicit environment, so every theorem quantifies over their behaviour;
everything else (regexes, `String.prototype.split`, `toLowerCase`,
`toISOString`, `encodeURI`, the `xml-js` serializer) is modelled
concretely, restricted to the ASCII behaviour the library exercises.
-/

/-! ## JavaScript string helpers -/

/-- Character class `[a-z]` / `[A-Z]` as used (with the `/i` flag) by the
regexes in `bcp47.ts`. -/
def isAsciiAlpha (c : Char) : Bool :=
  ((97 ≤ c.toNat) && (c.toNat ≤ 122)) || ((65 ≤ c.toNat) && (c.toNat ≤ 90))

/-- Character class `[0-9]`. -/
def isAsciiDigit (c : Char) : Bool :=
  (48 ≤ c.toNat) && (c.toNat ≤ 57)

/-- Character class `[0-9a-z]` with the `/i` flag. -/
def isAsciiAlphanum (c : Char) : Bool :=
  isAsciiAlpha c || isAsciiDigit c

/-- JS truthiness of an optional string property (`if (x) ...`):
present and non-empty. -/
def strTruthy : Option String → Bool
  | some s => s ≠ ""
  | none => false

/-- `x || d` on an optional string property, as in
`this.stylesheet.type || "text/xsl"`. -/
def strOrDefault : Option String → String → String
  | some s, d => if s = "" then d else s
  | none, d => d

/-- All characters of a string satisfy `p`. -/
def strAll (p : Char → Bool) (s : String) : Bool :=
  s.data.all p

/-- `lo ≤ s.length ≤ hi`. -/
def lenBetween (s : String) (lo hi : Nat) : Bool :=
  (lo ≤ s.length) && (s.length ≤ hi)

/-- ASCII case lowering of one character (`String.prototype.toLowerCase`
restricted to ASCII, which is all the grammar can accept). -/
def lowerChar (c : Char) : Char :=
  if 65 ≤ c.toNat ∧ c.toNat ≤ 90 then Char.ofNat (c.toNat + 32) else c

/-- `tag.toLowerCase()`. -/
def jsToLower (s : String) : String :=
  String.mk (s.data.map lowerChar)

/-- `s.split("-")` on the character list: splitting on `-` always yields
at least one (possibly empty) field. -/
def splitOnDash : List Char → List (List Char)
  | [] => [[]]
  | c :: cs =>
    if c = Char.ofNat 45 then [] :: splitOnDash cs
    else
      match splitOnDash cs with
      | [] => [[c]]
      | l :: ls => (c :: l) :: ls

/-- `s.split("-")`. -/
def jsSplitDash (s : String) : List String :=
  (splitOnDash s.data).map String.mk

/-! ## `bcp47.ts` — the BCP 47 grammar walk

Each `matchX` function below embeds the regex of the same-named function
in `src/bcp47.ts`.  The subtag walk (`isValidLanguageTag`) consumes a
suffix of the subtag list instead of advancing an index `pos`; the
remaining suffix corresponds to `subtags.slice(pos)` in the source. -/

/-- `/^[a-z]{2,3}$/i` (primary language subtag of 2–3 letters). -/
def matchAlpha23 (s : String) : Bool :=
  lenBetween s 2 3 && strAll isAsciiAlpha s

/-- `/^[a-z]{3}$/i` (extlang subtag). -/
def matchExtlang (s : String) : Bool :=
  (s.length == 3) && strAll isAsciiAlpha s

/-- `matchScript`: `/^[a-z]{4}$/i`. -/
def matchScript (s : String) : Bool :=
  (s.length == 4) && strAll isAsciiAlpha s

/-- `matchRegion`: `/^[a-z]{2}$/i` or `/^[0-9]{3}$/`. -/
def matchRegion (s : String) : Bool :=
  ((s.length == 2) && strAll isAsciiAlpha s) ||
    ((s.length == 3) && strAll isAsciiDigit s)

/-- `matchVariant`: `/^[0-9][0-9a-z]{3}$/i` or `/^[0-9a-z]{5,8}$/i`. -/
def matchVariant (s : String) : Bool :=
  (match s.data with
    | c :: rest => isAsciiDigit c && rest.length == 3 && rest.all isAsciiAlphanum
    | [] => false) ||
  (lenBetween s 5 8 && strAll isAsciiAlphanum s)

/-- `matchSingleton`: a single character, digit or letter except `x`/`X`. -/
def matchSingleton (s : String) : Bool :=
  (s.length == 1) && strAll isAsciiAlphanum s && s ≠ "x" && s ≠ "X"

/-- `matchExtensionSubtag`: `/^[0-9a-z]{2,8}$/i`. -/
def matchExtensionSubtag (s : String) : Bool :=
  lenBetween s 2 8 && strAll isAsciiAlphanum s

/-- `matchPrivateUseSubtag`: `/^[0-9a-z]{1,8}$/i`. -/
def matchPrivateUseSubtag (s : String) : Bool :=
  lenBetween s 1 8 && strAll isAsciiAlphanum s

/-- The extlang loop inside `matchLanguage`: consume consecutive 3-letter
subtags, failing (`none`) as soon as a fourth one is seen, exactly like
the `extlangCount > 3` check in the source. -/
def extlangLoop (count : Nat) : List String → Option (List String)
  | [] => some []
  | t :: ts =>
    if matchExtlang t then
      if count + 1 > 3 then none else extlangLoop (count + 1) ts
    else some (t :: ts)

/-- `matchLanguage`: on success, returns the subtags remaining after the
language (and extlang) subtags; `none` is the `{ valid: false }` case. -/
def matchLanguage : List String → Option (List String)
  | [] => none
  | primary :: rest =>
    if matchAlpha23 primary then extlangLoop 0 rest
    else if matchScript primary then some rest
    else if lenBetween primary 5 8 && strAll isAsciiAlpha primary then some rest
    else none

/-- The `// Extensions` while-loop from `isValidLanguageTag`, scanning
one subtag at a time.  `inGroup = true` is the state of the inner
`while` (the current group's singleton and first subtag are consumed);
`none` is the early `return false`. -/
def extScan (inGroup : Bool) : List String → Option (List String)
  | [] => some []
  | [t] =>
    if inGroup && matchExtensionSubtag t then some []
    else if matchSingleton t then none
    else some [t]
  | t :: u :: us =>
    if inGroup && matchExtensionSubtag t then extScan true (u :: us)
    else if matchSingleton t then
      (if matchExtensionSubtag u then extScan true us else none)
    else some (t :: u :: us)

/-- The extensions loop: each iteration consumes a singleton, demands at
least one extension subtag, then greedily consumes further extension
subtags. -/
def extensionsLoop (l : List String) : Option (List String) :=
  extScan false l

/-- The `// Optional script` step: consume one subtag if it is a script. -/
def scriptPhase : List String → List String
  | s :: ts => if matchScript s then ts else s :: ts
  | [] => []

/-- The `// Optional region` step. -/
def regionPhase : List String → List String
  | s :: ts => if matchRegion s then ts else s :: ts
  | [] => []

/-- The `// Variants` while-loop. -/
def variantsPhase (l : List String) : List String :=
  l.dropWhile matchVariant

/-- The trailing `// Optional private use` block plus the final
`pos === subtags.length` check. -/
def privateUseTail : List String → Bool
  | [] => true
  | t :: ts =>
    if t = "x" then
      match ts with
      | [] => false
      | _ :: _ => (ts.dropWhile matchPrivateUseSubtag).isEmpty
    else false

/-- The extensions loop followed by the private-use tail. -/
def extsWalk (l : List String) : Bool :=
  match extensionsLoop l with
  | none => false
  | some afterExts => privateUseTail afterExts

/-- The walk from the `// Optional script` step to the end of the
function (steps 3–7 of the grammar plus the final exhaustion check). -/
def tailWalk (afterLang : List String) : Bool :=
  extsWalk (variantsPhase (regionPhase (scriptPhase afterLang)))

/-- The body of `isValidLanguageTag` on the list of subtags produced by
`tag.toLowerCase().split("-")`. -/
def walkSubtags : List String → Bool
  | [] => false
  | first :: rest =>
    if first = "x" then
      -- private-use-only tag
      !rest.isEmpty && rest.all matchPrivateUseSubtag
    else
      match matchLanguage (first :: rest) with
      | none => false
      | some afterLang => tailWalk afterLang

/-- `isValidLanguageTag` from `src/bcp47.ts`. -/
def isValidLanguageTag (tag : String) : Bool :=
  if tag = "" then false
  else walkSubtags (jsSplitDash (jsToLower tag))

/-! ### Specification-side grammar (from the claim text)

`SpecLangtag` is the declarative reading of the grammar: the subtag list
decomposes, in order, into language (+ ≤3 extlangs), optional script,
optional region, variants, extension groups and an optional trailing
private-use section. -/

/-- Language section of the claim: 2–3 letters with up to 3 extlangs of
exactly 3 letters, or exactly 4 letters, or 5–8 letters. -/
def SpecLangSeg (l : List String) : Prop :=
  (∃ p es, l = p :: es ∧ matchAlpha23 p = true ∧ es.length ≤ 3 ∧
      ∀ e ∈ es, matchExtlang e = true) ∨
  (∃ p, l = [p] ∧ (matchScript p = true ∨
      (lenBetween p 5 8 && strAll isAsciiAlpha p) = true))

/-- One extension group: a singleton followed by at least one 2–8
alphanumeric subtag. -/
def SpecExtGroup (g : List String) : Prop :=
  ∃ s ts, g = s :: ts ∧ matchSingleton s = true ∧ ts ≠ [] ∧
    ∀ t ∈ ts, matchExtensionSubtag t = true

/-- Trailing private-use section: empty, or `x` followed by at least one
1–8 alphanumeric subtag. -/
def SpecPrivSeg (l : List String) : Prop :=
  l = [] ∨ ∃ ps, l = "x" :: ps ∧ ps ≠ [] ∧ ∀ p ∈ ps, matchPrivateUseSubtag p = true

/-- The full declarative grammar over a subtag list. -/
def SpecLangtag (subtags : List String) : Prop :=
  (∃ ps, subtags = "x" :: ps ∧ ps ≠ [] ∧ ∀ p ∈ ps, matchPrivateUseSubtag p = true) ∨
  (∃ (lang scr reg vars : List String) (exts : List (List String)) (priv : List String),
    subtags = lang ++ scr ++ reg ++ vars ++ exts.flatten ++ priv ∧
    SpecLangSeg lang ∧
    (scr = [] ∨ ∃ s, scr = [s] ∧ matchScript s = true) ∧
    (reg = [] ∨ ∃ s, reg = [s] ∧ matchRegion s = true) ∧
    (∀ v ∈ vars, matchVariant v = true) ∧
    (∀ g ∈ exts, SpecExtGroup g) ∧
    SpecPrivSeg priv)

/-- The claim, stated over the original string: split the lowercased tag
on `-` and require the declarative grammar. -/
def IsValidLanguageTagSpec (tag : String) : Prop :=
  SpecLangtag (jsSplitDash (jsToLower tag))

/-! ### Facts about the subtag matchers -/

/-- What the walk has left after the region step: flattened extension
groups followed by a private-use section. -/
def ExtsPrivTail (l : List String) : Prop :=
  ∃ (gs : List (List String)) (priv : List String),
    l = gs.flatten ++ priv ∧ (∀ g ∈ gs, SpecExtGroup g) ∧ SpecPrivSeg priv

def VarTail (l : List String) : Prop :=
  ∃ vars rest, l = vars ++ rest ∧ (∀ v ∈ vars, matchVariant v = true) ∧ ExtsPrivTail rest

def RegTail (l : List String) : Prop :=
  ∃ reg rest, l = reg ++ rest ∧
    (reg = [] ∨ ∃ s, reg = [s] ∧ matchRegion s = true) ∧ VarTail rest

def ScrTail (l : List String) : Prop :=
  ∃ scr rest, l = scr ++ rest ∧
    (scr = [] ∨ ∃ s, scr = [s] ∧ matchScript s = true) ∧ RegTail rest

abbrev JSDate := Option Int

/-- Hinnant's civil-from-days algorithm: the proleptic-Gregorian
`(year, month, day)` of day number `z0` counted from 1970-01-01, as used
by ECMAScript UTC date computation. -/
def civilFromDays (z0 : Int) : Int × Int × Int :=
  let z := z0 + 719468
  let era := z.fdiv 146097
  let doe := z - era * 146097
  let yoe := (doe - doe.fdiv 1460 + doe.fdiv 36524 - doe.fdiv 146096).fdiv 365
  let y := yoe + era * 400
  let doy := doe - (365 * yoe + yoe.fdiv 4 - yoe.fdiv 100)
  let mp := (5 * doy + 2).fdiv 153
  let d := doy - (153 * mp + 2).fdiv 5 + 1
  let m := mp + (if mp < 10 then 3 else -9)
  (y + (if m ≤ 2 then 1 else 0), m, d)

/-- Decimal rendering of `n`, zero-padded on the left to `width`. -/
def padNum (width : Nat) (n : Nat) : String :=
  let s := Nat.repr n
  String.mk (List.replicate (width - s.length) (Char.ofNat 48)) ++ s

/-- `Date.prototype.toISOString` for a finite time value: the ISO 8601
UTC form, with the year expanded to `±YYYYYY` outside 0000–9999
(ECMAScript "Date Time String Format"). -/
def toISOString (t : Int) : String :=
  let days := t.ediv 86400000
  let ms := (t.emod 86400000).toNat
  let ymd := civilFromDays days
  let datePart :=
    if 0 ≤ ymd.1 ∧ ymd.1 ≤ 9999 then padNum 4 ymd.1.toNat
    else (if ymd.1 < 0 then "-" else "+") ++ padNum 6 ymd.1.natAbs
  datePart ++ "-" ++ padNum 2 ymd.2.1.toNat ++ "-" ++ padNum 2 ymd.2.2.toNat ++
    "T" ++ padNum 2 (ms / 3600000) ++ ":" ++ padNum 2 (ms / 60000 % 60) ++ ":" ++
    padNum 2 (ms / 1000 % 60) ++ "." ++ padNum 3 (ms % 1000) ++ "Z"

/-! ### The validator regex `^\d{4}-\d{2}-\d{2}T\d{2}:\d{2}:\d{2}(\.\d{3})?Z$` -/

/-- Consume exactly `n` decimal digits. -/
def takeDigits : Nat → List Char → Option (List Char)
  | 0, cs => some cs
  | n + 1, c :: cs => if isAsciiDigit c then takeDigits n cs else none
  | _ + 1, [] => none

/-- Consume one expected character. -/
def expectChar (c : Char) : List Char → Option (List Char)
  | d :: cs => if d = c then some cs else none
  | [] => none

/-- The mandatory prefix `\d{4}-\d{2}-\d{2}T\d{2}:\d{2}:\d{2}` of the
date regex. -/
def rfc3339Head (cs : List Char) : Option (List Char) :=
  (((((((((((takeDigits 4 cs).bind (expectChar '-')).bind
      (takeDigits 2)).bind (expectChar '-')).bind (takeDigits 2)).bind
      (expectChar 'T')).bind (takeDigits 2)).bind (expectChar ':')).bind
      (takeDigits 2)).bind (expectChar ':')).bind (takeDigits 2))

/-- The date regex of `isValidRfc3339Date`, as a deterministic scanner
(the regex has no ambiguity: the optional fraction group starts with `.`
which is distinct from `Z`). -/
def matchRfc3339Pattern (s : String) : Bool :=
  match rfc3339Head s.data with
  | none => false
  | some cs =>
    (cs = ['Z']) ||
      (match (expectChar '.' cs).bind (takeDigits 3) with
       | some cs2 => cs2 = ['Z']
       | none => false)

/-- `isValidRfc3339Date` from `src/validators.ts`: an invalid date (NaN
time) fails, otherwise the `toISOString` rendering must match the
pattern. -/
def isValidRfc3339Date (date : JSDate) : Bool :=
  match date with
  | none => false
  | some t => matchRfc3339Pattern (toISOString t)

/-- `RawAtomFeed.formatDate`: throws on a NaN time value, throws when
`isValidRfc3339Date` rejects, otherwise returns `toISOString`. -/
def formatDate (date : JSDate) : Except String String :=
  match date with
  | none => Except.error "Invalid RFC 3339 date"
  | some t =>
    if isValidRfc3339Date (some t) = false then Except.error "Invalid RFC 3339 date"
    else Except.ok (toISOString t)

/-- The shape `YYYY-MM-DDTHH:MM:SS(.mmm)?Z` stated declaratively, from
the specification text: six fixed-width digit fields with the literal
separators, and an optional `.mmm` fraction before the final `Z`. -/
def Rfc3339Shape (s : String) : Prop :=
  ∃ y mo d h mi se frac : List Char,
    s.data = y ++ ['-'] ++ mo ++ ['-'] ++ d ++ ['T'] ++ h ++ [':'] ++ mi ++ [':'] ++
      se ++ frac ++ ['Z'] ∧
    y.length = 4 ∧ mo.length = 2 ∧ d.length = 2 ∧ h.length = 2 ∧ mi.length = 2 ∧
    se.length = 2 ∧
    (∀ c ∈ y ++ mo ++ d ++ h ++ mi ++ se, isAsciiDigit c = true) ∧
    (frac = [] ∨ ∃ ms, frac = '.' :: ms ∧ ms.length = 3 ∧
      ∀ c ∈ ms, isAsciiDigit c = true)

structure Person where
  name : String
  email : Option String := none
  uri : Option String := none
deriving DecidableEq, Repr

structure Category where
  term : String
  scheme : Option String := none
  label : Option String := none
deriving DecidableEq, Repr

structure Link where
  href : String
  rel : Option String := none
  type : Option String := none
  hreflang : Option String := none
  title : Option String := none
  length : Option String := none
deriving DecidableEq, Repr

structure TextConstruct where
  content : String
  type : Option String := none
  lang : Option String := none
  base : Option String := none
deriving DecidableEq, Repr

structure Content where
  content : String
  type : Option String := none
  src : Option String := none
  lang : Option String := none
  base : Option String := none
deriving DecidableEq, Repr

structure Generator where
  name : String
  version : Option String := none
  uri : Option String := none
deriving DecidableEq, Repr

structure Stylesheet where
  href : String
  type : Option String := none
deriving DecidableEq, Repr

structure Entry where
  id : String
  title : TextConstruct
  updated : JSDate
  authors : List Person := []
  contributors : List Person := []
  categories : List Category := []
  content : Option Content := none
  links : List Link := []
  published : Option JSDate := none
  rights : Option TextConstruct := none
  source : Option String := none
  summary : Option TextConstruct := none
deriving DecidableEq, Repr

structure FeedOptions where
  id : String
  title : TextConstruct
  updated : JSDate
  authors : List Person := []
  contributors : List Person := []
  categories : List Category := []
  generator : Option Generator := none
  icon : Option String := none
  links : Option (List Link) := none
  logo : Option String := none
  rights : Option TextConstruct := none
  subtitle : Option TextConstruct := none
  lang : Option String := none
  base : Option String := none
deriving DecidableEq, Repr

/-- The state of a `RawAtomFeed` instance. -/
structure RawAtomFeed where
  options : FeedOptions
  entries : List Entry := []
  usePrefixedNames : Bool := false
  sortEntries : Bool := false
  stylesheet : Option Stylesheet := none
deriving DecidableEq, Repr

/-- The two platform primitives the validators call and the repository
does not define: `new URL(s)` success and `btoa(atob(s)) === s` success.
Theorems quantify over both. -/
structure JsEnv where
  urlOk : String → Bool
  b64Ok : String → Bool

/-! ## `src/validators.ts` -/

/-- The JS regex class `\s` (the common whitespace code points). -/
def isJsSpace (c : Char) : Bool :=
  c.toNat = 32 || c.toNat = 9 || c.toNat = 10 || c.toNat = 11 || c.toNat = 12 ||
    c.toNat = 13 || c.toNat = 160 || c.toNat = 0xFEFF ||
    c.toNat = 0x2028 || c.toNat = 0x2029

/-- Scheme-body class `[a-z0-9+.-]` (with `/i`). -/
def schemeChar (c : Char) : Bool :=
  isAsciiAlphanum c || c.toNat = 43 || c.toNat = 46 || c.toNat = 45

/-- The fallback IRI regex `^[a-zA-Z][a-z0-9+.-]*:[^\s]*$/i` after its
first character: scheme characters up to the first `:`, then no
whitespace.  (The colon is not a scheme character, so the regex is
deterministic.) -/
def iriRegexTail : List Char → Bool
  | [] => false
  | c :: cs => if c = ':' then cs.all fun x => !isJsSpace x else schemeChar c && iriRegexTail cs

def iriRegex (iri : String) : Bool :=
  match iri.data with
  | [] => false
  | c :: cs => isAsciiAlpha c && iriRegexTail cs

/-- `isValidIri`: try `new URL`, fall back to the permissive regex. -/
def isValidIri (env : JsEnv) (iri : String) : Bool :=
  env.urlOk iri || iriRegex iri

/-- `isValidEmail`: the regex `^[^@\s]+@[^@\s]+\.[^@\s]+$` — one `@`
with a non-empty space-free local part, and a space-free domain with an
interior dot. -/
def isValidEmail (email : String) : Bool :=
  let cs := email.data
  let loc := cs.takeWhile fun c => c ≠ '@'
  match cs.dropWhile fun c => c ≠ '@' with
  | [] => false
  | _ :: dom =>
    !loc.isEmpty && loc.all (fun c => !isJsSpace c) &&
      !dom.isEmpty && dom.all (fun c => !(c = '@' || isJsSpace c)) &&
      ((dom.drop 1).dropLast.contains '.')

/-- `isValidBase64` delegates to the platform `atob`/`btoa` pair. -/
def isValidBase64 (env : JsEnv) (s : String) : Bool :=
  env.b64Ok s

/-- `String.prototype.trim`. -/
def jsTrim (s : String) : String :=
  String.mk (((s.data.dropWhile isJsSpace).reverse.dropWhile isJsSpace).reverse)

/-- The literal prefix demanded by the XHTML structural regex. -/
def xhtmlDivPrefix : List Char :=
  "<div xmlns=\"http://www.w3.org/1999/xhtml\"".data

/-- `isValidXhtmlContent`: the trimmed content must match
`^<div xmlns="http://www.w3.org/1999/xhtml".*>.*<\/div>$/s`: the literal
prefix, a `>` somewhere, and the `</div>` suffix. -/
def isValidXhtmlContent (content : String) : Bool :=
  let t := (jsTrim content).data
  let p := xhtmlDivPrefix
  (t.take p.length == p) &&
    (let rest := t.drop p.length
     (rest.drop (rest.length - 6) == "</div>".data) && (6 ≤ rest.length) &&
       ((rest.take (rest.length - 6)).contains '>'))

/-- `validateTextConstruct` (RFC 4287 §3.1). -/
def validateTextConstruct (env : JsEnv) (text : TextConstruct) (field : String) :
    Except String Unit :=
  if text.content == "" then
    Except.error (field ++ " content is required")
  else if strTruthy text.type &&
      !(text.type == some "text" || text.type == some "html" ||
        text.type == some "xhtml") then
    Except.error ("Invalid " ++ field ++
      " type: must be \x27text\x27, \x27html\x27, or \x27xhtml\x27")
  else if strTruthy text.lang && !isValidLanguageTag (text.lang.getD "") then
    Except.error ("Invalid language tag in " ++ field)
  else if text.type == some "xhtml" && !isValidXhtmlContent text.content then
    Except.error (field ++ " with type=\"xhtml\" must contain a single div element")
  else if strTruthy text.base && !isValidIri env (text.base.getD "") then
    Except.error ("Invalid base IRI in " ++ field)
  else Except.ok ()

/-- `validatePerson` (RFC 4287 §3.2). -/
def validatePerson (env : JsEnv) (person : Person) : Except String Unit :=
  if person.name == "" then Except.error "Person name is required"
  else if strTruthy person.uri && !isValidIri env (person.uri.getD "") then
    Except.error ("Invalid person URI: " ++ person.uri.getD "")
  else if strTruthy person.email && !isValidEmail (person.email.getD "") then
    Except.error ("Invalid person email: " ++ person.email.getD "")
  else Except.ok ()

/-- `validateCategory` (RFC 4287 §4.2.2). -/
def validateCategory (env : JsEnv) (category : Category) : Except String Unit :=
  if category.term == "" then Except.error "Category term is required"
  else if strTruthy category.scheme && !isValidIri env (category.scheme.getD "") then
    Except.error ("Invalid category scheme: " ++ category.scheme.getD "")
  else Except.ok ()

/-- `validateLink` (RFC 4287 §4.2.7). -/
def validateLink (env : JsEnv) (link : Link) : Except String Unit :=
  if link.href == "" then Except.error "Link href is required"
  else if !isValidIri env link.href then
    Except.error ("Invalid link href: " ++ link.href)
  else if strTruthy link.hreflang && !isValidLanguageTag (link.hreflang.getD "") then
    Except.error ("Invalid link hreflang: " ++ link.hreflang.getD "")
  else Except.ok ()

/-- `validateContent` (RFC 4287 §4.1.3).  JS truthiness makes an empty
`content` string count as absent in the first two checks. -/
def validateContent (env : JsEnv) (content : Content) : Except String Unit :=
  if content.content == "" && !strTruthy content.src then
    Except.error "Content must have either content or src"
  else if content.content != "" && strTruthy content.src then
    Except.error "Content cannot have both content and src"
  else if strTruthy content.src && !isValidIri env (content.src.getD "") then
    Except.error ("Invalid content src: " ++ content.src.getD "")
  else if content.type == some "xhtml" && !isValidXhtmlContent content.content then
    Except.error "XHTML content must contain a single div element"
  else if content.type == some "base64" && !isValidBase64 env content.content then
    Except.error "Invalid base64 content"
  else if strTruthy content.lang && !isValidLanguageTag (content.lang.getD "") then
    Except.error "Invalid content language tag"
  else if strTruthy content.base && !isValidIri env (content.base.getD "") then
    Except.error "Invalid content base IRI"
  else Except.ok ()

/-- `validateFeedOptions` (RFC 4287).  The `!options.title` and
`instanceof Date` checks of the source can never fire in this typed
model (`title` is an object and `updated` a `Date`), so they are
omitted; `!options.updated` likewise (an invalid `Date` is still a
truthy object). -/
def validateFeedOptions (env : JsEnv) (options : FeedOptions) : Except String Unit := do
  if options.id == "" then throw "Feed id is required"
  if !isValidRfc3339Date options.updated then throw "Invalid RFC 3339 date"
  if strTruthy options.lang && !isValidLanguageTag (options.lang.getD "") then
    throw "Invalid language tag"
  validateTextConstruct env options.title "Feed title"
  match options.subtitle with
  | some st => validateTextConstruct env st "Feed subtitle"
  | none => pure ()
  match options.rights with
  | some r => validateTextConstruct env r "Feed rights"
  | none => pure ()
  if strTruthy options.icon && !isValidIri env (options.icon.getD "") then
    throw "Invalid icon IRI"
  if strTruthy options.logo && !isValidIri env (options.logo.getD "") then
    throw "Invalid logo IRI"
  if strTruthy options.base && !isValidIri env (options.base.getD "") then
    throw "Invalid xml:base IRI"
  options.authors.forM (validatePerson env)
  options.contributors.forM (validatePerson env)
  options.categories.forM (validateCategory env)
  match options.links with
  | some ls => ls.forM (validateLink env)
  | none => pure ()

/-- `validateEntry` (RFC 4287).  The object-truthiness and
`instanceof Date` checks are omitted as in `validateFeedOptions`. -/
def validateEntry (env : JsEnv) (entry : Entry) : Except String Unit := do
  if entry.id == "" then throw "Entry id is required"
  if !isValidRfc3339Date entry.updated then
    throw "Entry updated must be a valid RFC 3339 date"
  validateTextConstruct env entry.title "Entry title"
  match entry.content with
  | some c => validateContent env c
  | none => pure ()
  match entry.summary with
  | some s => validateTextConstruct env s "Entry summary"
  | none => pure ()
  match entry.rights with
  | some r => validateTextConstruct env r "Entry rights"
  | none => pure ()
  entry.authors.forM (validatePerson env)
  entry.contributors.forM (validatePerson env)
  entry.categories.forM (validateCategory env)
  entry.links.forM (validateLink env)
  match entry.published with
  | some d =>
    if !isValidRfc3339Date d then
      throw "Entry published must be a valid RFC 3339 date"
    else pure ()
  | none => pure ()

/-! ## The `xml-js` document model and serializer (`compact: false`,
`spaces: 2`), as driven by `RawAtomFeed.toXml`. -/

inductive XmlNode where
  | element (name : String) (attributes : List (String × String)) (elements : List XmlNode)
  | text (s : String)
  | instruction (name instr : String)
deriving Repr

/-- A document: the fixed `<?xml version="1.0" encoding="utf-8"?>`
declaration followed by these top-level nodes. -/
structure XmlDoc where
  elements : List XmlNode
deriving Repr

/-- `/&amp;/g → &` — xml-js "desanitizes" before escaping text. -/
def desanitizeAmp : List Char → List Char
  | '&' :: 'a' :: 'm' :: 'p' :: ';' :: cs => '&' :: desanitizeAmp cs
  | c :: cs => c :: desanitizeAmp cs
  | [] => []

/-- Replace every occurrence of the single character `c` by `rep`. -/
def replaceChar (c : Char) (rep : List Char) : List Char → List Char
  | [] => []
  | d :: ds => if d = c then rep ++ replaceChar c rep ds else d :: replaceChar c rep ds

/-- xml-js `writeText`: desanitize `&amp;`, then escape `&`, `<`, `>`. -/
def writeText (s : String) : String :=
  String.mk (replaceChar '>' "&gt;".data (replaceChar '<' "&lt;".data
    (replaceChar '&' "&amp;".data (desanitizeAmp s.data))))

/-- xml-js `writeAttributes`: space-separated `key="value"` pairs with
`"` escaped in values. -/
def writeAttributes (attrs : List (String × String)) : String :=
  attrs.foldl (fun acc kv =>
    acc ++ " " ++ kv.1 ++ "=\"" ++ String.mk (replaceChar '"' "&quot;".data kv.2.data) ++ "\"") ""

/-- Two-space indentation at `depth`. -/
def indentation (depth : Nat) : String :=
  String.mk (List.replicate (depth * 2) ' ')

def XmlNode.isElement : XmlNode → Bool
  | .element .. => true
  | _ => false

/-- Whether a node is a text node (used for the closing-tag line
break). -/
def XmlNode.isText : XmlNode → Bool
  | .text _ => true
  | _ => false

mutual

/-- xml-js `writeElement`/`writeText`/`writeInstruction`: an element with
children closes on a new line when some child is a non-text node. -/
def writeNode (depth : Nat) : XmlNode → String
  | .element name attrs children =>
    "<" ++ name ++ writeAttributes attrs ++
      (if children.isEmpty then "/>"
       else ">" ++ writeNodes (depth + 1) children ++
         (if children.any (fun c => !c.isText) then "\n" ++ indentation depth else "") ++
         "</" ++ name ++ ">")
  | .text s => writeText s
  | .instruction name instr => "<?" ++ name ++ " " ++ instr ++ "?>"

/-- xml-js `writeElements`: each element child is preceded by a newline
and indentation; text and instruction children are written inline
(`indentText`/`indentInstruction` default to `false`). -/
def writeNodes (depth : Nat) : List XmlNode → String
  | [] => ""
  | c :: cs =>
    (match c with
      | .element .. => "\n" ++ indentation depth
      | _ => "") ++ writeNode depth c ++ writeNodes depth cs

end

/-- `js2xml` on a document with a declaration. -/
def js2xml (doc : XmlDoc) : String :=
  "<?xml version=\"1.0\" encoding=\"utf-8\"?>" ++ writeNodes 0 doc.elements

/-! ## `encodeURI` -/

/-- Characters `encodeURI` leaves unescaped: alphanumerics and
`; , / ? : @ & = + $ - _ . ! ~ * ' ( ) #`. -/
def encodeURIUnescaped (c : Char) : Bool :=
  isAsciiAlphanum c ||
    c = ';' || c = ',' || c = '/' || c = '?' || c = ':' || c = '@' || c = '&' ||
    c = '=' || c = '+' || c = '$' || c = '-' || c = '_' || c = '.' || c = '!' ||
    c = '~' || c = '*' || c = Char.ofNat 39 || c = '(' || c = ')' || c = '#'

/-- UTF-8 bytes of a code point. -/
def utf8Bytes (n : Nat) : List Nat :=
  if n < 0x80 then [n]
  else if n < 0x800 then [0xC0 + n / 64, 0x80 + n % 64]
  else if n < 0x10000 then [0xE0 + n / 4096, 0x80 + n / 64 % 64, 0x80 + n % 64]
  else [0xF0 + n / 262144, 0x80 + n / 4096 % 64, 0x80 + n / 64 % 64, 0x80 + n % 64]

/-- Uppercase hexadecimal digit. -/
def hexDigit (n : Nat) : Char :=
  if n < 10 then Char.ofNat (48 + n) else Char.ofNat (55 + n)

def percentByte (b : Nat) : List Char :=
  ['%', hexDigit (b / 16), hexDigit (b % 16)]

/-- `encodeURI`: percent-encode the UTF-8 bytes of every character not
in the unescaped set. -/
def encodeURI (s : String) : String :=
  String.mk (s.data.foldr
    (fun c acc =>
      (if encodeURIUnescaped c then [c] else (utf8Bytes c.toNat).flatMap percentByte) ++ acc)
    [])

/-! ## The `RawAtomFeed` element builders -/

/-- `getElementName`: optional `atom:` prefixing. -/
def getElementName (u : Bool) (name : String) : String :=
  if u then "atom:" ++ name else name

/-- An element containing a single text node (the inline object literals
of the source). -/
def simpleTextElement (u : Bool) (name text : String) : XmlNode :=
  .element (getElementName u name) [] [.text text]

/-- `createTextConstructElement`: attributes from truthy `type`, `lang`,
`base`; `type === "xhtml"` wraps the content in a synthesized
`<div xmlns="http://www.w3.org/1999/xhtml">` whose child is a *text*
node holding the stored content. -/
def createTextConstructElement (u : Bool) (text : TextConstruct) (name : String) : XmlNode :=
  let attributes :=
    (if strTruthy text.type then [("type", text.type.getD "")] else []) ++
    (if strTruthy text.lang then [("xml:lang", text.lang.getD "")] else []) ++
    (if strTruthy text.base then [("xml:base", text.base.getD "")] else [])
  if text.type == some "xhtml" then
    .element (getElementName u name) attributes
      [.element "div" [("xmlns", "http://www.w3.org/1999/xhtml")] [.text text.content]]
  else
    .element (getElementName u name) attributes [.text text.content]

/-- `createPersonElement`. -/
def createPersonElement (u : Bool) (person : Person) (name : String) : XmlNode :=
  .element (getElementName u name) []
    ([simpleTextElement u "name" person.name] ++
     (if strTruthy person.email then [simpleTextElement u "email" (person.email.getD "")]
      else []) ++
     (if strTruthy person.uri then [simpleTextElement u "uri" (person.uri.getD "")]
      else []))

/-- `createCategoryElement`. -/
def createCategoryElement (u : Bool) (category : Category) : XmlNode :=
  .element (getElementName u "category")
    ([("term", category.term)] ++
     (if strTruthy category.scheme then [("scheme", category.scheme.getD "")] else []) ++
     (if strTruthy category.label then [("label", category.label.getD "")] else [])) []

/-- `createLinkElement`: the `href` is `encodeURI`-encoded. -/
def createLinkElement (u : Bool) (link : Link) : XmlNode :=
  .element (getElementName u "link")
    ([("href", encodeURI link.href)] ++
     (if strTruthy link.rel then [("rel", link.rel.getD "")] else []) ++
     (if strTruthy link.type then [("type", link.type.getD "")] else []) ++
     (if strTruthy link.hreflang then [("hreflang", link.hreflang.getD "")] else []) ++
     (if strTruthy link.title then [("title", link.title.getD "")] else []) ++
     (if strTruthy link.length then [("length", link.length.getD "")] else [])) []

/-- `createContentElement`: with a truthy `src` no children are emitted;
otherwise `type === "xhtml"` synthesizes the same div-wrapped text node
as text constructs, and any other type a plain text node. -/
def createContentElement (u : Bool) (content : Content) : XmlNode :=
  let attributes :=
    (if strTruthy content.type then [("type", content.type.getD "")] else []) ++
    (if strTruthy content.lang then [("xml:lang", content.lang.getD "")] else []) ++
    (if strTruthy content.base then [("xml:base", content.base.getD "")] else []) ++
    (if strTruthy content.src then [("src", content.src.getD "")] else [])
  let children :=
    if !strTruthy content.src then
      if content.type == some "xhtml" then
        [XmlNode.element "div" [("xmlns", "http://www.w3.org/1999/xhtml")]
          [.text content.content]]
      else [XmlNode.text content.content]
    else []
  .element (getElementName u "content") attributes children

/-- `createEntryElement`: `formatDate` may throw, first on `updated`,
then on `published`. -/
def createEntryElement (u : Bool) (entry : Entry) : Except String XmlNode :=
  match formatDate entry.updated with
  | Except.error e => Except.error e
  | Except.ok updatedStr =>
  match (match entry.published with
         | some d =>
           match formatDate d with
           | Except.error e => Except.error e
           | Except.ok s => Except.ok [simpleTextElement u "published" s]
         | none => Except.ok ([] : List XmlNode)) with
  | Except.error e => Except.error e
  | Except.ok publishedPart =>
  Except.ok (.element (getElementName u "entry") []
    ([simpleTextElement u "id" entry.id,
      createTextConstructElement u entry.title "title",
      simpleTextElement u "updated" updatedStr] ++
     entry.authors.map (fun a => createPersonElement u a "author") ++
     entry.contributors.map (fun c => createPersonElement u c "contributor") ++
     entry.categories.map (createCategoryElement u) ++
     (match entry.content with
      | some c => [createContentElement u c]
      | none => []) ++
     entry.links.map (createLinkElement u) ++
     publishedPart ++
     (match entry.rights with
      | some r => [createTextConstructElement u r "rights"]
      | none => []) ++
     (if strTruthy entry.source then [simpleTextElement u "source" (entry.source.getD "")]
      else []) ++
     (match entry.summary with
      | some sm => [createTextConstructElement u sm "summary"]
      | none => [])))

/-! ## `RawAtomFeed` operations (explicit state passing: the first
component of each pair is the feed state after the call, also when an
exception aborted the method body). -/

/-- The constructor: the four language-tag guards, then
`validateFeedOptions`, then field initialization. -/
def mkRawAtomFeed (env : JsEnv) (options : FeedOptions) (u : Bool) (sortEntries : Bool)
    (stylesheet : Option Stylesheet) : Except String RawAtomFeed := do
  if strTruthy options.lang && !isValidLanguageTag (options.lang.getD "") then
    throw "Invalid language tag in feed"
  if strTruthy options.title.lang && !isValidLanguageTag (options.title.lang.getD "") then
    throw "Invalid language tag in title"
  if strTruthy (options.subtitle.bind (·.lang)) &&
      !isValidLanguageTag ((options.subtitle.bind (·.lang)).getD "") then
    throw "Invalid language tag in subtitle"
  if strTruthy (options.rights.bind (·.lang)) &&
      !isValidLanguageTag ((options.rights.bind (·.lang)).getD "") then
    throw "Invalid language tag in rights"
  validateFeedOptions env options
  pure { options := options, entries := [], usePrefixedNames := u,
         sortEntries := sortEntries, stylesheet := stylesheet }

/-- `addEntry`: validate, then push — a throw leaves `entries`
untouched. -/
def addEntry (env : JsEnv) (feed : RawAtomFeed) (entry : Entry) :
    RawAtomFeed × Except String Unit :=
  match validateEntry env entry with
  | Except.error e => (feed, Except.error e)
  | Except.ok () => ({ feed with entries := feed.entries ++ [entry] }, Except.ok ())

/-- `removeEntry`: filter out every entry with the given id; report
whether the length changed. -/
def removeEntry (feed : RawAtomFeed) (entryId : String) : RawAtomFeed × Bool :=
  let initialLength := feed.entries.length
  let newEntries := feed.entries.filter fun entry => entry.id != entryId
  ({ feed with entries := newEntries }, newEntries.length != initialLength)

/-- A JS array value together with its `Object.isFrozen` status. -/
structure FrozenArray (α : Type) where
  data : List α
  isFrozen : Bool
deriving Repr

/-- `getEntries`: `Object.freeze([...this.entries])` — a frozen copy of
the collection; the feed state is returned unchanged. -/
def getEntries (feed : RawAtomFeed) : FrozenArray Entry × RawAtomFeed :=
  (⟨feed.entries, true⟩, feed)

/-- `Array.prototype.push`: on a frozen array, strict-mode code throws a
`TypeError` and the array is unchanged. -/
def arrayPush {α : Type} (a : FrozenArray α) (x : α) : Except String (FrozenArray α) :=
  if a.isFrozen then Except.error "TypeError: Cannot add property, object is not extensible"
  else Except.ok ⟨a.data ++ [x], a.isFrozen⟩

/-- `getLinks`: `this.options.links || []`. -/
def getLinks (feed : RawAtomFeed) : List Link :=
  feed.options.links.getD []

/-- The `for`-loop of `setLinks`: validate each link in order,
accumulating `updatedLinks`; the first throw aborts. -/
def validateLinksList (env : JsEnv) : List Link → Except String (List Link)
  | [] => Except.ok []
  | l :: ls => do
    validateLink env l
    let rest ← validateLinksList env ls
    pure (l :: rest)

/-- `setLinks`: the assignment to `options.links` only happens after the
whole loop succeeded. -/
def setLinks (env : JsEnv) (feed : RawAtomFeed) (links : List Link) :
    RawAtomFeed × Except String Unit :=
  match validateLinksList env links with
  | Except.error e => (feed, Except.error e)
  | Except.ok updatedLinks =>
    ({ feed with options := { feed.options with links := some updatedLinks } },
      Except.ok ())

/-- `clear`. -/
def clear (feed : RawAtomFeed) : RawAtomFeed :=
  { feed with entries := [] }

/-! ## Sorting and rendering -/

/-- The sort key (`updated.getTime()`).  Entries reaching the sort have
validated finite dates; the JS comparator is unspecified on NaN, so the
`none` case is mapped to 0 and theorems assume finite dates. -/
def updatedTime (e : Entry) : Int :=
  e.updated.getD 0

/-- `getSortedEntries`: a stable descending sort by `updated` of a copy
of the collection.  `Array.prototype.sort` is required to be stable
(ES2019), and a stable sort is extensionally unique, so insertion sort
realizes the same function. -/
def getSortedEntries (feed : RawAtomFeed) : List Entry :=
  if !feed.sortEntries then feed.entries
  else feed.entries.insertionSort fun a b => updatedTime b ≤ updatedTime a

/-- The entry list `toXml` renders
(`this.sortEntries ? this.getSortedEntries() : this.entries`). -/
def entriesToAdd (feed : RawAtomFeed) : List Entry :=
  if feed.sortEntries then getSortedEntries feed else feed.entries

/-- The root attributes of `toXml`. -/
def feedAttributes (feed : RawAtomFeed) : List (String × String) :=
  (if feed.usePrefixedNames then [("xmlns:atom", "http://www.w3.org/2005/Atom")]
   else [("xmlns", "http://www.w3.org/2005/Atom")]) ++
  (if strTruthy feed.options.lang then [("xml:lang", feed.options.lang.getD "")] else []) ++
  (if strTruthy feed.options.base then [("xml:base", feed.options.base.getD "")] else [])

/-- The children of the root element other than the entries, in the
fixed order of `toXml` (id, title, updated, authors, contributors,
categories, generator, icon, links, logo, rights, subtitle). -/
def feedStaticElements (feed : RawAtomFeed) (updatedStr : String) : List XmlNode :=
  [simpleTextElement feed.usePrefixedNames "id" feed.options.id,
   createTextConstructElement feed.usePrefixedNames feed.options.title "title",
   simpleTextElement feed.usePrefixedNames "updated" updatedStr] ++
  feed.options.authors.map (fun a => createPersonElement feed.usePrefixedNames a "author") ++
  feed.options.contributors.map
    (fun c => createPersonElement feed.usePrefixedNames c "contributor") ++
  feed.options.categories.map (createCategoryElement feed.usePrefixedNames) ++
  (match feed.options.generator with
   | some g =>
     [XmlNode.element (getElementName feed.usePrefixedNames "generator")
       ((if strTruthy g.version then [("version", g.version.getD "")] else []) ++
        (if strTruthy g.uri then [("uri", g.uri.getD "")] else []))
       [.text g.name]]
   | none => []) ++
  (if strTruthy feed.options.icon then
    [simpleTextElement feed.usePrefixedNames "icon" (feed.options.icon.getD "")] else []) ++
  (match feed.options.links with
   | some ls => ls.map (createLinkElement feed.usePrefixedNames)
   | none => []) ++
  (if strTruthy feed.options.logo then
    [simpleTextElement feed.usePrefixedNames "logo" (feed.options.logo.getD "")] else []) ++
  (match feed.options.rights with
   | some r => [createTextConstructElement feed.usePrefixedNames r "rights"]
   | none => []) ++
  (match feed.options.subtitle with
   | some st => [createTextConstructElement feed.usePrefixedNames st "subtitle"]
   | none => [])

/-- The stylesheet processing instruction, with the `type` defaulted by
`||` (so an empty string also defaults) and the `href`
`encodeURI`-encoded. -/
def stylesheetInstruction (st : Stylesheet) : XmlNode :=
  .instruction "xml-stylesheet"
    ("type=\"" ++ strOrDefault st.type "text/xsl" ++ "\" href=\"" ++
      encodeURI st.href ++ "\"")

/-- `toXml` up to serialization: the `xml-js` input tree. -/
def buildDoc (feed : RawAtomFeed) : Except String XmlDoc :=
  match formatDate feed.options.updated with
  | Except.error e => Except.error e
  | Except.ok updatedStr =>
  match (entriesToAdd feed).mapM (createEntryElement feed.usePrefixedNames) with
  | Except.error e => Except.error e
  | Except.ok entryElems =>
  Except.ok ⟨(match feed.stylesheet with
              | some st => [stylesheetInstruction st]
              | none => []) ++
             [.element (getElementName feed.usePrefixedNames "feed") (feedAttributes feed)
               (feedStaticElements feed updatedStr ++ entryElems)]⟩

/-- `toXml`: build the tree and serialize; the feed state is returned
unchanged (the method never mutates `this`). -/
def toXml (feed : RawAtomFeed) : Except String String × RawAtomFeed :=
  ((buildDoc feed).map js2xml, feed)

/-! ## Concrete inputs used by witnesses and counterexamples -/

/-- An environment whose URL parser and base64 round-trip always fail:
the regex fallbacks then decide everything. -/
def envNone : JsEnv := ⟨fun _ => false, fun _ => false⟩

/-- A validated `type="xhtml"` title: its content is exactly the
required div wrapper. -/
def c1Construct : TextConstruct :=
  { content := "<div xmlns=\"http://www.w3.org/1999/xhtml\">Hello <b>World</b></div>",
    type := some "xhtml" }

set_option maxRecDepth 8000

/-- The C10 counterexample content construct: empty `content`, a valid
`src`, and `type="xhtml"`. -/
def c10Bad : Content :=
  { content := "", type := some "xhtml", src := some "http://a/" }

/-- A minimal feed used by the C6 witness. -/
def c6Feed : RawAtomFeed :=
  { options := { id := "t", title := { content := "T" }, updated := some 0,
                 links := some [{ href := "http://x/" }] },
    entries := [{ id := "e1", title := { content := "E" }, updated := some 0 }] }

/-- The descending comparator of `getSortedEntries` as a relation. -/
def updatedGE (a b : Entry) : Prop :=
  updatedTime b ≤ updatedTime a

instance : DecidableRel updatedGE := fun a b => inferInstanceAs (Decidable (_ ≤ _))

instance : IsTotal Entry updatedGE :=
  ⟨fun a b => le_total (updatedTime b) (updatedTime a)⟩

instance : IsTrans Entry updatedGE :=
  ⟨fun _ _ _ h1 h2 => le_trans h2 h1⟩

/-- Entries for the C3 witness: a tie on `updated` between the second
and third insertions. -/
def c3e1 : Entry := { id := "1", title := { content := "A" }, updated := some 100 }

def c3e2 : Entry := { id := "2", title := { content := "B" }, updated := some 200 }

def c3e3 : Entry := { id := "3", title := { content := "C" }, updated := some 200 }

def c3Feed : RawAtomFeed :=
  { options := { id := "t", title := { content := "T" }, updated := some 0 },
    entries := [c3e1, c3e2, c3e3], sortEntries := true }

/-- A feed whose stored `updated` date is invalid (NaN time value). -/
def c4BadFeed : RawAtomFeed :=
  { options := { id := "t", title := { content := "T" }, updated := none } }

mutual

/-- Whether a node contains a processing instruction anywhere. -/
def hasInstruction : XmlNode → Bool
  | .instruction .. => true
  | .element _ _ children => hasInstructionList children
  | .text _ => false

def hasInstructionList : List XmlNode → Bool
  | [] => false
  | c :: cs => hasInstruction c || hasInstructionList cs

end

/-- The C9 counterexample feed: a stylesheet configured with
`type = ""`. -/
def c9Bad : RawAtomFeed :=
  { options := { id := "t", title := { content := "T" }, updated := some 0 },
    stylesheet := some { href := "s.xsl", type := some "" } }

/-- The C9 witness feed: a stylesheet with a non-empty type and a href
that needs percent-encoding. -/
def c9Good : RawAtomFeed :=
  { options := { id := "t", title := { content := "T" }, updated := some 0 },
    stylesheet := some { href := "a b.xsl", type := some "text/css" } }

/-- The document `buildDoc` produces for `c9Good`. -/
def c9GoodDoc : XmlDoc :=
  ⟨[.instruction "xml-stylesheet" "type=\"text/css\" href=\"a%20b.xsl\"",
    .element "feed" [("xmlns", "http://www.w3.org/2005/Atom")]
      [.element "id" [] [.text "t"],
       .element "title" [] [.text "T"],
       .element "updated" [] [.text "1970-01-01T00:00:00.000Z"]]]⟩

lemma extScan_nil (g : Bool) : extScan g [] = some [] := by
  cases g <;> rfl

lemma extScan_one (g : Bool) (t : String) :
    extScan g [t] =
      if g && matchExtensionSubtag t then some []
      else if matchSingleton t then none
      else some [t] := by
  cases g <;> rfl

lemma extScan_two (g : Bool) (t u : String) (us : List String) :
    extScan g (t :: u :: us) =
      if g && matchExtensionSubtag t then extScan true (u :: us)
      else if matchSingleton t then
        (if matchExtensionSubtag u then extScan true us else none)
      else some (t :: u :: us) := by
  cases g <;> rfl

lemma extScan_true_eq (l : List String) :
    extScan true l = extScan false (l.dropWhile matchExtensionSubtag) := by
  induction l with
  | nil => rfl
  | cons t ts ih =>
    by_cases ht : matchExtensionSubtag t = true
    · rw [List.dropWhile_cons_of_pos ht, ← ih]
      cases ts with
      | nil => simp [extScan_one, extScan_nil, ht]
      | cons u us => simp [extScan_two, ht]
    · rw [List.dropWhile_cons_of_neg (by simp [ht])]
      cases ts with
      | nil => simp [extScan_one, ht]
      | cons u us => simp [extScan_two, ht]

lemma extensionsLoop_nil : extensionsLoop [] = some [] := rfl

/-- The greedy inner `while` of the extensions loop, fused into one
equation: after the singleton and its first subtag, all following
extension subtags are dropped at once. -/
lemma extensionsLoop_cons (t : String) (ts : List String) :
    extensionsLoop (t :: ts) =
      if matchSingleton t then
        match ts with
        | [] => none
        | u :: us =>
          if matchExtensionSubtag u then extensionsLoop (us.dropWhile matchExtensionSubtag)
          else none
      else some (t :: ts) := by
  cases ts with
  | nil =>
    rw [extensionsLoop, extScan_one]
    simp
  | cons u us =>
    rw [extensionsLoop, extScan_two]
    by_cases hs : matchSingleton t = true
    · by_cases hu : matchExtensionSubtag u = true
      · simp [hs, hu, extScan_true_eq, extensionsLoop]
      · simp [hs, hu]
    · simp [hs]

lemma extensionsLoop_sing (t : String) (hs : matchSingleton t = true) :
    extensionsLoop [t] = none := by
  rw [extensionsLoop_cons]
  simp [hs]

lemma extensionsLoop_group (t u : String) (us : List String)
    (hs : matchSingleton t = true) :
    extensionsLoop (t :: u :: us) =
      if matchExtensionSubtag u then extensionsLoop (us.dropWhile matchExtensionSubtag)
      else none := by
  rw [extensionsLoop_cons]
  simp [hs]

lemma extensionsLoop_stop (t : String) (ts : List String)
    (hs : matchSingleton t = false) :
    extensionsLoop (t :: ts) = some (t :: ts) := by
  rw [extensionsLoop_cons]
  simp [hs]

lemma str_length_data (s : String) : s.length = s.data.length := rfl

lemma matchExtlang_length {s : String} (h : matchExtlang s = true) : s.length = 3 := by
  simp only [matchExtlang, Bool.and_eq_true, beq_iff_eq] at h
  exact h.1

lemma matchScript_length {s : String} (h : matchScript s = true) : s.length = 4 := by
  simp only [matchScript, Bool.and_eq_true, beq_iff_eq] at h
  exact h.1

lemma matchRegion_length {s : String} (h : matchRegion s = true) :
    s.length = 2 ∨ s.length = 3 := by
  simp only [matchRegion, Bool.or_eq_true, Bool.and_eq_true, beq_iff_eq] at h
  rcases h with h | h
  · exact Or.inl h.1
  · exact Or.inr h.1

lemma matchVariant_length {s : String} (h : matchVariant s = true) :
    4 ≤ s.length ∧ s.length ≤ 8 := by
  simp only [matchVariant, Bool.or_eq_true, Bool.and_eq_true, beq_iff_eq] at h
  rcases h with h | h
  · rcases hd : s.data with _ | ⟨c, rest⟩ <;> rw [hd] at h <;>
      simp only [Bool.and_eq_true, beq_iff_eq] at h
    · exact absurd h (by simp)
    · have hl : s.length = rest.length + 1 := by rw [str_length_data, hd]; rfl
      have h3 : rest.length = 3 := h.1.2
      omega
  · have := h.1
    simp only [lenBetween, Bool.and_eq_true, decide_eq_true_eq] at this
    omega

lemma matchSingleton_length {s : String} (h : matchSingleton s = true) : s.length = 1 := by
  simp only [matchSingleton, Bool.and_eq_true, beq_iff_eq] at h
  exact h.1.1.1

lemma matchExtensionSubtag_length {s : String} (h : matchExtensionSubtag s = true) :
    2 ≤ s.length ∧ s.length ≤ 8 := by
  simp only [matchExtensionSubtag, Bool.and_eq_true] at h
  have := h.1
  simp only [lenBetween, Bool.and_eq_true, decide_eq_true_eq] at this
  omega

lemma matchAlpha23_length {s : String} (h : matchAlpha23 s = true) :
    2 ≤ s.length ∧ s.length ≤ 3 := by
  simp only [matchAlpha23, Bool.and_eq_true] at h
  have := h.1
  simp only [lenBetween, Bool.and_eq_true, decide_eq_true_eq] at this
  omega

lemma digit_not_alpha {c : Char} (h : isAsciiDigit c = true) : isAsciiAlpha c = false := by
  simp only [isAsciiDigit, Bool.and_eq_true, decide_eq_true_eq] at h
  simp only [isAsciiAlpha, Bool.or_eq_false_iff, Bool.and_eq_false_iff]
  constructor <;> [left; left] <;> simp only [decide_eq_false_iff_not] <;> omega

/-- A string of length 1 matches none of the multi-character subtag
classes. -/
lemma len1_fails {s : String} (h : s.length = 1) :
    matchExtlang s = false ∧ matchScript s = false ∧ matchRegion s = false ∧
      matchVariant s = false ∧ matchExtensionSubtag s = false := by
  refine ⟨?_, ?_, ?_, ?_, ?_⟩
  · cases hm : matchExtlang s
    · rfl
    · exact absurd (matchExtlang_length hm) (by omega)
  · cases hm : matchScript s
    · rfl
    · exact absurd (matchScript_length hm) (by omega)
  · cases hm : matchRegion s
    · rfl
    · exact absurd (matchRegion_length hm) (by omega)
  · cases hm : matchVariant s
    · rfl
    · exact absurd (matchVariant_length hm) (by omega)
  · cases hm : matchExtensionSubtag s
    · rfl
    · exact absurd (matchExtensionSubtag_length hm) (by omega)

lemma x_length : ("x" : String).length = 1 := rfl

/-- The head character of a string all of whose characters satisfy `p`. -/
lemma strAll_head {p : Char → Bool} {s : String} {c : Char} {cs : List Char}
    (hd : s.data = c :: cs) (h : strAll p s = true) : p c = true := by
  simp only [strAll, hd, List.all_cons, Bool.and_eq_true] at h
  exact h.1

/-- A nonempty all-digit string is not all-alphabetic, hence a 3-digit
region is not an extlang and a digit-led variant is not a script. -/
lemma matchRegion_not_extlang {s : String} (h : matchRegion s = true) :
    matchExtlang s = false := by
  simp only [matchRegion, Bool.or_eq_true, Bool.and_eq_true, beq_iff_eq] at h
  rcases h with h | h
  · cases hm : matchExtlang s
    · rfl
    · exact absurd (matchExtlang_length hm) (by omega)
  · rcases hd : s.data with _ | ⟨c, cs⟩
    · have h0 : s.length = 0 := by rw [str_length_data, hd]; rfl
      omega
    · have hc : isAsciiDigit c = true := strAll_head hd h.2
      cases hm : matchExtlang s
      · rfl
      · simp only [matchExtlang, Bool.and_eq_true] at hm
        have := strAll_head hd hm.2
        rw [digit_not_alpha hc] at this
        cases this

lemma matchVariant_not_script {s : String} (h : matchVariant s = true) :
    matchScript s = false := by
  simp only [matchVariant, Bool.or_eq_true] at h
  rcases h with h | h
  · rcases hd : s.data with _ | ⟨c, cs⟩ <;> rw [hd] at h <;>
      simp only [Bool.and_eq_true, beq_iff_eq] at h
    · exact absurd h (by simp)
    · have hc : isAsciiDigit c = true := h.1.1
      cases hm : matchScript s
      · rfl
      · simp only [matchScript, Bool.and_eq_true] at hm
        have := strAll_head hd hm.2
        rw [digit_not_alpha hc] at this
        cases this
  · simp only [Bool.and_eq_true] at h
    have := h.1
    simp only [lenBetween, Bool.and_eq_true, decide_eq_true_eq] at this
    cases hm : matchScript s
    · rfl
    · exact absurd (matchScript_length hm) (by omega)

lemma matchVariant_not_region {s : String} (h : matchVariant s = true) :
    matchRegion s = false := by
  have := matchVariant_length h
  cases hm : matchRegion s
  · rfl
  · exact absurd (matchRegion_length hm) (by omega)

lemma matchVariant_not_extlang {s : String} (h : matchVariant s = true) :
    matchExtlang s = false := by
  have := matchVariant_length h
  cases hm : matchExtlang s
  · rfl
  · exact absurd (matchExtlang_length hm) (by omega)

lemma matchScript_not_extlang {s : String} (h : matchScript s = true) :
    matchExtlang s = false := by
  have := matchScript_length h
  cases hm : matchExtlang s
  · rfl
  · exact absurd (matchExtlang_length hm) (by omega)

/-! ### Completeness: a declarative decomposition makes the walk succeed -/

lemma dropWhile_append_all {p : String → Bool} {a b : List String}
    (h : ∀ x ∈ a, p x = true) : (a ++ b).dropWhile p = b.dropWhile p := by
  induction a with
  | nil => rfl
  | cons x xs ih =>
    rw [List.cons_append, List.dropWhile_cons_of_pos (h x (by simp))]
    exact ih fun y hy => h y (by simp [hy])

lemma dropWhile_all_nil {p : String → Bool} {a : List String}
    (h : ∀ x ∈ a, p x = true) : a.dropWhile p = [] := by
  have := dropWhile_append_all (b := []) h
  simpa using this

lemma extsPrivTail_head {l : List String} (h : ExtsPrivTail l) :
    l = [] ∨ ∃ t ts, l = t :: ts ∧ t.length = 1 := by
  obtain ⟨gs, priv, rfl, hg, hp⟩ := h
  cases gs with
  | nil =>
    rcases hp with rfl | ⟨ps, rfl, _, _⟩
    · exact Or.inl rfl
    · exact Or.inr ⟨"x", ps, rfl, x_length⟩
  | cons g gs =>
    obtain ⟨s, ts, rfl, hs, _, _⟩ := hg g (by simp)
    exact Or.inr ⟨s, ts ++ gs.flatten ++ priv, by simp, matchSingleton_length hs⟩

lemma privTail_of_spec {l : List String} (h : SpecPrivSeg l) : privateUseTail l = true := by
  rcases h with rfl | ⟨ps, rfl, hne, hall⟩
  · rfl
  · cases ps with
    | nil => exact absurd rfl hne
    | cons p ps =>
      simp only [privateUseTail, if_pos rfl]
      rw [dropWhile_all_nil hall]
      rfl

lemma singleton_x_false : matchSingleton "x" = false := by decide

lemma extsWalk_nil : extsWalk [] = true := by
  simp [extsWalk, extensionsLoop_nil, privateUseTail]

lemma extsWalk_not_singleton {t : String} {ts : List String}
    (h : matchSingleton t = false) :
    extsWalk (t :: ts) = privateUseTail (t :: ts) := by
  rw [extsWalk, extensionsLoop_cons]
  simp [h]

lemma extsWalk_priv {priv : List String} (hp : SpecPrivSeg priv) :
    extsWalk priv = true := by
  rcases hp with rfl | ⟨ps, rfl, hne, hall⟩
  · exact extsWalk_nil
  · rw [extsWalk_not_singleton singleton_x_false]
    exact privTail_of_spec (Or.inr ⟨ps, rfl, hne, hall⟩)

lemma extsWalk_of_groups :
    ∀ (gs : List (List String)) (priv : List String),
      (∀ g ∈ gs, SpecExtGroup g) → SpecPrivSeg priv →
      extsWalk (gs.flatten ++ priv) = true
  | [], priv, _, hp => by
    show extsWalk priv = true
    exact extsWalk_priv hp
  | g :: gs, priv, hg, hp => by
    obtain ⟨s, ts, rfl, hs, hne, hall⟩ := hg g (by simp)
    cases ts with
    | nil => exact absurd rfl hne
    | cons u us =>
      have htail : ExtsPrivTail (gs.flatten ++ priv) :=
        ⟨gs, priv, rfl, fun g hgm => hg g (by simp [hgm]), hp⟩
      have ih := extsWalk_of_groups gs priv (fun g hgm => hg g (by simp [hgm])) hp
      have hrest : (gs.flatten ++ priv).dropWhile matchExtensionSubtag
          = gs.flatten ++ priv := by
        rcases extsPrivTail_head htail with hnil | ⟨t, ts', heq, hlen⟩
        · rw [hnil]; rfl
        · rw [heq]
          exact List.dropWhile_cons_of_neg (by simp [(len1_fails hlen).2.2.2.2])
      have hflat : ((s :: u :: us) :: gs).flatten ++ priv
          = s :: (u :: (us ++ (gs.flatten ++ priv))) := by
        simp [List.append_assoc]
      have key : extensionsLoop (s :: (u :: (us ++ (gs.flatten ++ priv))))
          = extensionsLoop (gs.flatten ++ priv) := by
        rw [extensionsLoop_cons]
        have h1 : matchExtensionSubtag u = true := hall u (List.mem_cons_self _ _)
        have h2 : (us ++ (gs.flatten ++ priv)).dropWhile matchExtensionSubtag
            = gs.flatten ++ priv := by
          rw [dropWhile_append_all (fun x hx => hall x (List.mem_cons_of_mem _ hx)), hrest]
        simp [hs, h1, h2]
      rw [extsWalk] at ih ⊢
      rw [hflat, key]
      exact ih

lemma extsWalk_of_tail {l : List String} (h : ExtsPrivTail l) : extsWalk l = true := by
  obtain ⟨gs, priv, rfl, hg, hp⟩ := h
  exact extsWalk_of_groups gs priv hg hp

lemma varTail_head {l : List String} (h : VarTail l) :
    ∀ t ts, l = t :: ts → (matchVariant t = true ∨ t.length = 1) := by
  obtain ⟨vars, rest, rfl, hv, hrest⟩ := h
  intro t ts heq
  cases vars with
  | nil =>
    rcases extsPrivTail_head hrest with hnil | ⟨t', ts', heq', hlen⟩
    · rw [hnil] at heq; cases heq
    · rw [heq'] at heq
      cases heq
      exact Or.inr hlen
  | cons v vs =>
    rw [List.cons_append] at heq
    injection heq with h1 h2
    exact Or.inl (h1 ▸ hv v (List.mem_cons_self _ _))

lemma varWalk_of_tail {l : List String} (h : VarTail l) :
    extsWalk (variantsPhase l) = true := by
  obtain ⟨vars, rest, rfl, hv, hrest⟩ := h
  rw [variantsPhase, dropWhile_append_all hv]
  have hr : rest.dropWhile matchVariant = rest := by
    rcases extsPrivTail_head hrest with hnil | ⟨t, ts, heq, hlen⟩
    · rw [hnil]; rfl
    · rw [heq]
      exact List.dropWhile_cons_of_neg (by simp [(len1_fails hlen).2.2.2.1])
  rw [hr]
  exact extsWalk_of_tail hrest

lemma regWalk_of_tail {l : List String} (h : RegTail l) :
    extsWalk (variantsPhase (regionPhase l)) = true := by
  obtain ⟨reg, rest, rfl, hr, hrest⟩ := h
  rcases hr with rfl | ⟨s, rfl, hs⟩
  · have : regionPhase rest = rest := by
      cases hrt : rest with
      | nil => rfl
      | cons t ts =>
        rcases varTail_head (hrt ▸ hrest) t ts rfl with hv | hlen
        · rw [regionPhase, if_neg (by simp [matchVariant_not_region hv])]
        · rw [regionPhase, if_neg (by simp [(len1_fails hlen).2.2.1])]
    rw [List.nil_append, this]
    exact varWalk_of_tail hrest
  · rw [List.cons_append, List.nil_append, regionPhase, if_pos hs]
    exact varWalk_of_tail hrest

lemma regTail_head {l : List String} (h : RegTail l) :
    ∀ t ts, l = t :: ts →
      (matchRegion t = true ∨ matchVariant t = true ∨ t.length = 1) := by
  obtain ⟨reg, rest, rfl, hr, hrest⟩ := h
  intro t ts heq
  rcases hr with rfl | ⟨s, rfl, hs⟩
  · rcases varTail_head hrest t ts heq with hv | hlen
    · exact Or.inr (Or.inl hv)
    · exact Or.inr (Or.inr hlen)
  · cases heq
    exact Or.inl hs

lemma tailWalk_of_tail {l : List String} (h : ScrTail l) : tailWalk l = true := by
  obtain ⟨scr, rest, rfl, hs, hrest⟩ := h
  rw [tailWalk]
  rcases hs with rfl | ⟨s, rfl, hsc⟩
  · have : scriptPhase rest = rest := by
      cases hrt : rest with
      | nil => rfl
      | cons t ts =>
        rcases regTail_head (hrt ▸ hrest) t ts rfl with hr | hv | hlen
        · rcases matchRegion_length hr with h2 | h3 <;>
            · rw [scriptPhase]
              refine if_neg ?_
              intro hc
              have := matchScript_length hc
              omega
        · rw [scriptPhase, if_neg (by simp [matchVariant_not_script hv])]
        · rw [scriptPhase, if_neg (by simp [(len1_fails hlen).2.1])]
    rw [List.nil_append, this]
    exact regWalk_of_tail hrest
  · rw [List.cons_append, List.nil_append, scriptPhase, if_pos hsc]
    exact regWalk_of_tail hrest

lemma scrTail_head_not_extlang {l : List String} (h : ScrTail l) :
    ∀ t ts, l = t :: ts → matchExtlang t = false := by
  obtain ⟨scr, rest, rfl, hs, hrest⟩ := h
  intro t ts heq
  rcases hs with rfl | ⟨s, rfl, hsc⟩
  · rcases regTail_head hrest t ts heq with hr | hv | hlen
    · exact matchRegion_not_extlang hr
    · exact matchVariant_not_extlang hv
    · exact (len1_fails hlen).1
  · cases heq
    exact matchScript_not_extlang hsc

lemma extlangLoop_complete {es rest : List String} {count : Nat}
    (hes : ∀ e ∈ es, matchExtlang e = true) (hlen : count + es.length ≤ 3)
    (hr : ∀ t ts, rest = t :: ts → matchExtlang t = false) :
    extlangLoop count (es ++ rest) = some rest := by
  induction es generalizing count with
  | nil =>
    cases hrt : rest with
    | nil => rfl
    | cons t ts =>
      rw [List.nil_append, extlangLoop, if_neg (by simp [hr t ts hrt])]
  | cons e es ih =>
    rw [List.cons_append, extlangLoop, if_pos (hes e (List.mem_cons_self _ _))]
    simp only [List.length_cons] at hlen
    rw [if_neg (by omega)]
    exact ih (fun x hx => hes x (List.mem_cons_of_mem _ hx)) (by omega)

lemma matchAlpha23_of_len {s : String} (h4 : 4 ≤ s.length) : matchAlpha23 s = false := by
  cases hm : matchAlpha23 s
  · rfl
  · exact absurd (matchAlpha23_length hm) (by omega)

lemma matchLanguage_complete {lang rest : List String} (hl : SpecLangSeg lang)
    (hr : ∀ t ts, rest = t :: ts → matchExtlang t = false) :
    matchLanguage (lang ++ rest) = some rest := by
  rcases hl with ⟨p, es, rfl, hp, hle, hes⟩ | ⟨p, rfl, hp | hp⟩
  · rw [List.cons_append, matchLanguage, if_pos hp]
    exact extlangLoop_complete hes (by omega) hr
  · have h4 := matchScript_length hp
    rw [List.cons_append, List.nil_append, matchLanguage,
      if_neg (by simp [matchAlpha23_of_len (s := p) (by omega)]), if_pos hp]
  · have h58 : 5 ≤ p.length := by
      have := hp
      simp only [Bool.and_eq_true, lenBetween, decide_eq_true_eq] at this
      omega
    rw [List.cons_append, List.nil_append, matchLanguage,
      if_neg (by simp [matchAlpha23_of_len (s := p) (by omega)]),
      if_neg (by
        intro hc
        have := matchScript_length hc
        omega),
      if_pos hp]

lemma lang_head_not_x {lang : List String} (hl : SpecLangSeg lang) :
    ∀ p l, lang = p :: l → p ≠ "x" := by
  intro p l heq hpx
  have h1 : p.length = 1 := by rw [hpx]; rfl
  rcases hl with ⟨q, es, hq, hp, _, _⟩ | ⟨q, hq, hp | hp⟩
  · rw [heq] at hq
    cases hq
    exact absurd (matchAlpha23_length hp) (by omega)
  · rw [heq] at hq
    cases hq
    exact absurd (matchScript_length hp) (by omega)
  · rw [heq] at hq
    cases hq
    have := hp
    simp only [Bool.and_eq_true, lenBetween, decide_eq_true_eq] at this
    omega

/-- Completeness: a declarative decomposition of the subtag list makes
the imperative walk accept. -/
lemma spec_to_walk {subtags : List String} (h : SpecLangtag subtags) :
    walkSubtags subtags = true := by
  rcases h with ⟨ps, rfl, hne, hall⟩ |
    ⟨lang, scr, reg, vars, exts, priv, heq, hlang, hscr, hreg, hvars, hexts, hpriv⟩
  · rw [walkSubtags, if_pos rfl]
    cases ps with
    | nil => exact absurd rfl hne
    | cons p ps =>
      simp only [List.isEmpty_cons, Bool.not_false, Bool.true_and, List.all_eq_true]
      exact hall
  · have hscrtail : ScrTail (scr ++ reg ++ vars ++ exts.flatten ++ priv) :=
      ⟨scr, reg ++ vars ++ exts.flatten ++ priv, by simp [List.append_assoc], hscr,
        reg, vars ++ exts.flatten ++ priv, by simp [List.append_assoc], hreg,
        vars, exts.flatten ++ priv, by simp [List.append_assoc], hvars,
        exts, priv, rfl, hexts, hpriv⟩
    have hrest := scrTail_head_not_extlang hscrtail
    rcases hl0 : lang with _ | ⟨p, l⟩
    · rw [hl0] at hlang
      rcases hlang with ⟨q, es, hq, _, _, _⟩ | ⟨q, hq, _⟩ <;> cases hq
    · have hpx : p ≠ "x" := lang_head_not_x hlang p l hl0
      have hml : matchLanguage (lang ++ (scr ++ reg ++ vars ++ exts.flatten ++ priv))
          = some (scr ++ reg ++ vars ++ exts.flatten ++ priv) :=
        matchLanguage_complete hlang hrest
      have hsub : subtags = p :: (l ++ (scr ++ reg ++ vars ++ exts.flatten ++ priv)) := by
        rw [heq, hl0]
        simp [List.append_assoc]
      rw [hsub, walkSubtags, if_neg hpx]
      have : matchLanguage (p :: (l ++ (scr ++ reg ++ vars ++ exts.flatten ++ priv)))
          = some (scr ++ reg ++ vars ++ exts.flatten ++ priv) := by
        rw [← List.cons_append, ← hl0]
        exact hml
      rw [this]
      exact tailWalk_of_tail hscrtail

/-! ### Soundness: an accepting walk yields a declarative decomposition -/

lemma privateUseTail_sound {l : List String} (h : privateUseTail l = true) :
    SpecPrivSeg l := by
  cases l with
  | nil => exact Or.inl rfl
  | cons t ts =>
    by_cases hx : t = "x"
    · subst hx
      cases ts with
      | nil => simp [privateUseTail] at h
      | cons u us =>
        have h' : ((u :: us).dropWhile matchPrivateUseSubtag).isEmpty = true := by
          simpa [privateUseTail] using h
        refine Or.inr ⟨u :: us, rfl, by simp, ?_⟩
        exact List.dropWhile_eq_nil_iff.mp (List.isEmpty_iff.mp h')
    · simp [privateUseTail, hx] at h

lemma extensionsLoop_sound : ∀ (n : Nat) (l r : List String), l.length ≤ n →
    extensionsLoop l = some r →
    ∃ gs : List (List String), l = gs.flatten ++ r ∧ ∀ g ∈ gs, SpecExtGroup g
  | _, [], r, _, h => by
    rw [extensionsLoop_nil] at h
    cases h
    exact ⟨[], rfl, by simp⟩
  | 0, t :: ts, r, hlen, h => by simp at hlen
  | n + 1, t :: ts, r, hlen, h => by
    by_cases hs : matchSingleton t = true
    · cases ts with
      | nil =>
        rw [extensionsLoop_sing t hs] at h
        cases h
      | cons u us =>
        rw [extensionsLoop_group t u us hs] at h
        by_cases hu : matchExtensionSubtag u = true
        · rw [if_pos hu] at h
          have hlen' : (us.dropWhile matchExtensionSubtag).length ≤ n := by
            have h1 := (List.dropWhile_suffix (l := us) matchExtensionSubtag).sublist.length_le
            simp only [List.length_cons] at hlen
            omega
          obtain ⟨gs, heq, hg⟩ := extensionsLoop_sound n _ r hlen' h
          refine ⟨(t :: u :: us.takeWhile matchExtensionSubtag) :: gs, ?_, ?_⟩
          · calc t :: u :: us
                = t :: u :: (us.takeWhile matchExtensionSubtag
                    ++ us.dropWhile matchExtensionSubtag) := by
                  rw [List.takeWhile_append_dropWhile]
              _ = (t :: u :: us.takeWhile matchExtensionSubtag)
                    ++ us.dropWhile matchExtensionSubtag := by simp
              _ = (t :: u :: us.takeWhile matchExtensionSubtag) ++ (gs.flatten ++ r) := by
                  rw [← heq]
              _ = ((t :: u :: us.takeWhile matchExtensionSubtag) :: gs).flatten ++ r := by
                  simp [List.append_assoc]
          · intro g hgm
            rcases List.mem_cons.mp hgm with rfl | hgm
            · refine ⟨t, u :: us.takeWhile matchExtensionSubtag, rfl, hs, by simp, ?_⟩
              intro x hxm
              rcases List.mem_cons.mp hxm with rfl | hxm
              · exact hu
              · exact List.mem_takeWhile_imp hxm
            · exact hg g hgm
        · rw [if_neg hu] at h
          cases h
    · rw [extensionsLoop_stop t ts (by simpa using hs)] at h
      injection h with h'
      subst h'
      exact ⟨[], rfl, by simp⟩

lemma extlangLoop_sound {count : Nat} (hcount : count ≤ 3) :
    ∀ {l r : List String}, extlangLoop count l = some r →
    ∃ es, l = es ++ r ∧ (∀ e ∈ es, matchExtlang e = true) ∧ es.length + count ≤ 3 := by
  intro l
  induction l generalizing count with
  | nil =>
    intro r h
    rw [extlangLoop] at h
    cases h
    exact ⟨[], rfl, by simp, by simpa using hcount⟩
  | cons t ts ih =>
    intro r h
    rw [extlangLoop] at h
    by_cases ht : matchExtlang t = true
    · rw [if_pos ht] at h
      by_cases hc : count + 1 > 3
      · rw [if_pos hc] at h
        cases h
      · rw [if_neg hc] at h
        obtain ⟨es, heq, hes, hlen⟩ := ih (by omega) h
        refine ⟨t :: es, by rw [List.cons_append, heq], ?_, by
          simp only [List.length_cons]; omega⟩
        intro e he
        rcases List.mem_cons.mp he with rfl | he
        · exact ht
        · exact hes e he
    · rw [if_neg ht] at h
      injection h with h'
      subst h'
      exact ⟨[], rfl, by simp, by simpa using hcount⟩

lemma matchLanguage_sound {l r : List String} (h : matchLanguage l = some r) :
    ∃ lang, l = lang ++ r ∧ SpecLangSeg lang := by
  cases l with
  | nil => rw [matchLanguage] at h; cases h
  | cons p rest =>
    rw [matchLanguage] at h
    by_cases h23 : matchAlpha23 p = true
    · rw [if_pos h23] at h
      obtain ⟨es, heq, hes, hlen⟩ := extlangLoop_sound (by omega) h
      exact ⟨p :: es, by rw [List.cons_append, heq],
        Or.inl ⟨p, es, rfl, h23, by omega, hes⟩⟩
    · rw [if_neg h23] at h
      by_cases h4 : matchScript p = true
      · rw [if_pos h4] at h
        injection h with h'
        subst h'
        exact ⟨[p], rfl, Or.inr ⟨p, rfl, Or.inl h4⟩⟩
      · rw [if_neg h4] at h
        by_cases h58 : (lenBetween p 5 8 && strAll isAsciiAlpha p) = true
        · rw [if_pos h58] at h
          injection h with h'
          subst h'
          exact ⟨[p], rfl, Or.inr ⟨p, rfl, Or.inr h58⟩⟩
        · rw [if_neg h58] at h
          cases h

lemma scriptPhase_sound (l : List String) :
    ∃ scr, l = scr ++ scriptPhase l ∧
      (scr = [] ∨ ∃ s, scr = [s] ∧ matchScript s = true) := by
  cases l with
  | nil => exact ⟨[], rfl, Or.inl rfl⟩
  | cons s ts =>
    by_cases hs : matchScript s = true
    · exact ⟨[s], by simp [scriptPhase, hs], Or.inr ⟨s, rfl, hs⟩⟩
    · exact ⟨[], by simp [scriptPhase, hs], Or.inl rfl⟩

lemma regionPhase_sound (l : List String) :
    ∃ reg, l = reg ++ regionPhase l ∧
      (reg = [] ∨ ∃ s, reg = [s] ∧ matchRegion s = true) := by
  cases l with
  | nil => exact ⟨[], rfl, Or.inl rfl⟩
  | cons s ts =>
    by_cases hs : matchRegion s = true
    · exact ⟨[s], by simp [regionPhase, hs], Or.inr ⟨s, rfl, hs⟩⟩
    · exact ⟨[], by simp [regionPhase, hs], Or.inl rfl⟩

lemma variantsPhase_sound (l : List String) :
    ∃ vars, l = vars ++ variantsPhase l ∧ ∀ v ∈ vars, matchVariant v = true :=
  ⟨l.takeWhile matchVariant, (List.takeWhile_append_dropWhile ..).symm,
    fun _ hv => List.mem_takeWhile_imp hv⟩

/-- Soundness: if the imperative walk accepts, the declarative grammar
holds. -/
lemma walk_to_spec {subtags : List String} (h : walkSubtags subtags = true) :
    SpecLangtag subtags := by
  cases subtags with
  | nil => cases h
  | cons first rest =>
    rw [walkSubtags] at h
    by_cases hx : first = "x"
    · rw [if_pos hx] at h
      subst hx
      cases rest with
      | nil => cases h
      | cons p ps =>
        simp only [List.isEmpty_cons, Bool.not_false, Bool.true_and,
          List.all_eq_true] at h
        exact Or.inl ⟨p :: ps, rfl, by simp, h⟩
    · rw [if_neg hx] at h
      cases hml : matchLanguage (first :: rest) with
      | none => rw [hml] at h; cases h
      | some afterLang =>
        rw [hml] at h
        obtain ⟨lang, heq, hlang⟩ := matchLanguage_sound hml
        have h' : (match extensionsLoop (variantsPhase (regionPhase (scriptPhase afterLang))) with
            | none => false
            | some afterExts => privateUseTail afterExts) = true := h
        obtain ⟨scr, hseq, hscr⟩ := scriptPhase_sound afterLang
        obtain ⟨reg, hreq, hreg⟩ := regionPhase_sound (scriptPhase afterLang)
        obtain ⟨vars, hveq, hvars⟩ := variantsPhase_sound (regionPhase (scriptPhase afterLang))
        cases hel : extensionsLoop (variantsPhase (regionPhase (scriptPhase afterLang))) with
        | none => rw [hel] at h'; cases h'
        | some afterExts =>
          rw [hel] at h'
          obtain ⟨gs, hgeq, hgs⟩ := extensionsLoop_sound
            (variantsPhase (regionPhase (scriptPhase afterLang))).length _ _ le_rfl hel
          have hpriv := privateUseTail_sound h' 
          refine Or.inr ⟨lang, scr, reg, vars, gs, afterExts, ?_, hlang, hscr, hreg,
            hvars, hgs, hpriv⟩
          rw [heq, hseq, hreq, hveq, hgeq]
          simp [List.append_assoc]

/-- The two directions combined, at the level of the subtag list. -/
lemma walkSubtags_iff_spec (subtags : List String) :
    walkSubtags subtags = true ↔ SpecLangtag subtags :=
  ⟨walk_to_spec, spec_to_walk⟩

/-- C2: `isValidLanguageTag` is a total Boolean function (never throws)
that returns `true` exactly when the lowercased tag, split on `-`, is
either a private-use-only sequence or a language subtag followed in
order by optional script, optional region, variants, extension groups
and an optional trailing private-use section, with every subtag
consumed; the listed known-valid tags are accepted and the listed
known-invalid tags rejected. -/
theorem isValidLanguageTag_iff_spec :
    (∀ tag : String, isValidLanguageTag tag = true ↔ IsValidLanguageTagSpec tag) ∧
    (isValidLanguageTag "en" = true ∧ isValidLanguageTag "eng" = true ∧
     isValidLanguageTag "zh-Hans-CN" = true ∧ isValidLanguageTag "sl-rozaj-biske" = true ∧
     isValidLanguageTag "en-US-u-islamcal" = true ∧ isValidLanguageTag "x-private" = true ∧
     isValidLanguageTag "zh-yue-hak" = true) ∧
    (isValidLanguageTag "e" = false ∧ isValidLanguageTag "abc1" = false ∧
     isValidLanguageTag "en-12A" = false ∧ isValidLanguageTag "en-GB-OX" = false ∧
     isValidLanguageTag "en-US-u-" = false ∧ isValidLanguageTag "x" = false ∧
     isValidLanguageTag "x-" = false) := by
  refine ⟨?_, by decide, by decide⟩
  intro tag
  rw [isValidLanguageTag, IsValidLanguageTagSpec]
  by_cases h0 : tag = ""
  · subst h0
    rw [if_pos rfl]
    constructor
    · intro h
      cases h
    · intro h
      exact absurd (spec_to_walk h) (by decide)
  · rw [if_neg h0]
    exact walkSubtags_iff_spec _

/-! ## JavaScript dates and `toISOString`

A JS `Date` is its time value: `none` models an invalid date (`NaN`
time), `some t` a finite time value of `t` milliseconds since the epoch. -/

lemma takeDigits_sound : ∀ {n : Nat} {cs r : List Char}, takeDigits n cs = some r →
    ∃ ds, cs = ds ++ r ∧ ds.length = n ∧ ∀ c ∈ ds, isAsciiDigit c = true := by
  intro n
  induction n with
  | zero =>
    intro cs r h
    rw [takeDigits] at h
    cases h
    exact ⟨[], rfl, rfl, by simp⟩
  | succ n ih =>
    intro cs r h
    cases cs with
    | nil => cases h
    | cons c cs =>
      rw [takeDigits] at h
      by_cases hc : isAsciiDigit c = true
      · rw [if_pos hc] at h
        obtain ⟨ds, rfl, hlen, hds⟩ := ih h
        refine ⟨c :: ds, rfl, by simp [hlen], ?_⟩
        intro x hx
        rcases List.mem_cons.mp hx with rfl | hx
        · exact hc
        · exact hds x hx
      · rw [if_neg hc] at h
        cases h

lemma takeDigits_complete : ∀ {n : Nat} {ds r : List Char}, ds.length = n →
    (∀ c ∈ ds, isAsciiDigit c = true) → takeDigits n (ds ++ r) = some r := by
  intro n
  induction n with
  | zero =>
    intro ds r hlen _
    rw [List.length_eq_zero.mp hlen]
    rfl
  | succ n ih =>
    intro ds r hlen hds
    cases ds with
    | nil => cases hlen
    | cons c cs =>
      rw [List.cons_append, takeDigits, if_pos (hds c (List.mem_cons_self _ _))]
      exact ih (by simpa using hlen) fun x hx => hds x (List.mem_cons_of_mem _ hx)

lemma expectChar_sound {c : Char} {cs r : List Char} (h : expectChar c cs = some r) :
    cs = c :: r := by
  cases cs with
  | nil => cases h
  | cons d cs =>
    rw [expectChar] at h
    by_cases hd : d = c
    · rw [if_pos hd] at h
      cases h
      rw [hd]
    · rw [if_neg hd] at h
      cases h

lemma expectChar_complete (c : Char) (r : List Char) : expectChar c (c :: r) = some r := by
  rw [expectChar, if_pos rfl]

lemma rfc3339Head_sound {cs r : List Char} (h : rfc3339Head cs = some r) :
    ∃ y mo d hh mi se : List Char,
      cs = y ++ ['-'] ++ mo ++ ['-'] ++ d ++ ['T'] ++ hh ++ [':'] ++ mi ++ [':'] ++
        se ++ r ∧
      y.length = 4 ∧ mo.length = 2 ∧ d.length = 2 ∧ hh.length = 2 ∧ mi.length = 2 ∧
      se.length = 2 ∧ ∀ c ∈ y ++ mo ++ d ++ hh ++ mi ++ se, isAsciiDigit c = true := by
  rw [rfc3339Head] at h
  obtain ⟨a10, h10, h⟩ := Option.bind_eq_some.mp h
  obtain ⟨a9, h9, h10'⟩ := Option.bind_eq_some.mp h10
  obtain ⟨a8, h8, h9'⟩ := Option.bind_eq_some.mp h9
  obtain ⟨a7, h7, h8'⟩ := Option.bind_eq_some.mp h8
  obtain ⟨a6, h6, h7'⟩ := Option.bind_eq_some.mp h7
  obtain ⟨a5, h5, h6'⟩ := Option.bind_eq_some.mp h6
  obtain ⟨a4, h4, h5'⟩ := Option.bind_eq_some.mp h5
  obtain ⟨a3, h3, h4'⟩ := Option.bind_eq_some.mp h4
  obtain ⟨a2, h2, h3'⟩ := Option.bind_eq_some.mp h3
  obtain ⟨a1, h1, h2'⟩ := Option.bind_eq_some.mp h2
  obtain ⟨y, hcs, hy4, hyd⟩ := takeDigits_sound h1
  have e1 := expectChar_sound h2'
  obtain ⟨mo, e2, hmo2, hmod⟩ := takeDigits_sound h3'
  have e3 := expectChar_sound h4'
  obtain ⟨d, e4, hd2, hdd⟩ := takeDigits_sound h5'
  have e5 := expectChar_sound h6'
  obtain ⟨hh, e6, hh2, hhd⟩ := takeDigits_sound h7'
  have e7 := expectChar_sound h8'
  obtain ⟨mi, e8, hmi2, hmid⟩ := takeDigits_sound h9'
  have e9 := expectChar_sound h10'
  obtain ⟨se, e10, hse2, hsed⟩ := takeDigits_sound h
  refine ⟨y, mo, d, hh, mi, se, ?_, hy4, hmo2, hd2, hh2, hmi2, hse2, ?_⟩
  · rw [hcs, e1, e2, e3, e4, e5, e6, e7, e8, e9, e10]
    simp [List.append_assoc]
  · intro c hc
    simp only [List.mem_append] at hc
    rcases hc with ((((hc | hc) | hc) | hc) | hc) | hc
    · exact hyd c hc
    · exact hmod c hc
    · exact hdd c hc
    · exact hhd c hc
    · exact hmid c hc
    · exact hsed c hc

lemma rfc3339Head_complete {y mo d hh mi se r : List Char}
    (hy : y.length = 4) (hmo : mo.length = 2) (hd : d.length = 2) (hhh : hh.length = 2)
    (hmi : mi.length = 2) (hse : se.length = 2)
    (hdig : ∀ c ∈ y ++ mo ++ d ++ hh ++ mi ++ se, isAsciiDigit c = true) :
    rfc3339Head (y ++ ['-'] ++ mo ++ ['-'] ++ d ++ ['T'] ++ hh ++ [':'] ++ mi ++ [':'] ++
      se ++ r) = some r := by
  have hyd : ∀ c ∈ y, isAsciiDigit c = true := fun c hc => hdig c (by simp [hc])
  have hmod : ∀ c ∈ mo, isAsciiDigit c = true := fun c hc => hdig c (by simp [hc])
  have hdd : ∀ c ∈ d, isAsciiDigit c = true := fun c hc => hdig c (by simp [hc])
  have hhd : ∀ c ∈ hh, isAsciiDigit c = true := fun c hc => hdig c (by simp [hc])
  have hmid : ∀ c ∈ mi, isAsciiDigit c = true := fun c hc => hdig c (by simp [hc])
  have hsed : ∀ c ∈ se, isAsciiDigit c = true := fun c hc => hdig c (by simp [hc])
  rw [rfc3339Head]
  rw [show y ++ ['-'] ++ mo ++ ['-'] ++ d ++ ['T'] ++ hh ++ [':'] ++ mi ++ [':'] ++
      se ++ r = y ++ ('-' :: (mo ++ ('-' :: (d ++ ('T' :: (hh ++ (':' :: (mi ++
      (':' :: (se ++ r)))))))))) by simp]
  rw [takeDigits_complete hy hyd]
  simp only [Option.some_bind]
  rw [expectChar_complete]
  simp only [Option.some_bind]
  rw [takeDigits_complete hmo hmod]
  simp only [Option.some_bind]
  rw [expectChar_complete]
  simp only [Option.some_bind]
  rw [takeDigits_complete hd hdd]
  simp only [Option.some_bind]
  rw [expectChar_complete]
  simp only [Option.some_bind]
  rw [takeDigits_complete hhh hhd]
  simp only [Option.some_bind]
  rw [expectChar_complete]
  simp only [Option.some_bind]
  rw [takeDigits_complete hmi hmid]
  simp only [Option.some_bind]
  rw [expectChar_complete]
  simp only [Option.some_bind]
  rw [takeDigits_complete hse hsed]

lemma matchRfc3339Pattern_iff (s : String) :
    matchRfc3339Pattern s = true ↔ Rfc3339Shape s := by
  constructor
  · intro h
    rw [matchRfc3339Pattern] at h
    cases hhead : rfc3339Head s.data with
    | none => rw [hhead] at h; cases h
    | some cs =>
      rw [hhead] at h
      obtain ⟨y, mo, d, hh, mi, se, heq, hy, hmo, hd, hhh, hmi, hse, hdig⟩ :=
        rfc3339Head_sound hhead
      simp only [Bool.or_eq_true, decide_eq_true_eq] at h
      rcases h with rfl | h
      · exact ⟨y, mo, d, hh, mi, se, [], by simpa using heq, hy, hmo, hd, hhh, hmi,
          hse, hdig, Or.inl rfl⟩
      · cases hdot : expectChar '.' cs with
        | none => rw [hdot] at h; cases h
        | some cs1 =>
          rw [hdot] at h
          simp only [Option.some_bind] at h
          cases hms : takeDigits 3 cs1 with
          | none => rw [hms] at h; cases h
          | some cs2 =>
            rw [hms] at h
            simp only [decide_eq_true_eq] at h
            subst h
            obtain ⟨ms, rfl, hms3, hmsd⟩ := takeDigits_sound hms
            rw [expectChar_sound hdot] at heq
            exact ⟨y, mo, d, hh, mi, se, '.' :: ms, by simpa [List.append_assoc] using heq,
              hy, hmo, hd, hhh, hmi, hse, hdig, Or.inr ⟨ms, rfl, hms3, hmsd⟩⟩
  · rintro ⟨y, mo, d, hh, mi, se, frac, heq, hy, hmo, hd, hhh, hmi, hse, hdig, hfrac⟩
    rw [matchRfc3339Pattern]
    rcases hfrac with rfl | ⟨ms, rfl, hms3, hmsd⟩
    · have : rfc3339Head s.data = some ['Z'] := by
        rw [heq]
        simpa using rfc3339Head_complete (r := ['Z']) hy hmo hd hhh hmi hse hdig
      rw [this]
      simp
    · have : rfc3339Head s.data = some ('.' :: (ms ++ ['Z'])) := by
        rw [heq]
        have := rfc3339Head_complete (r := '.' :: (ms ++ ['Z'])) hy hmo hd hhh hmi hse hdig
        rw [← this]
        simp [List.append_assoc]
      rw [this]
      simp only [expectChar_complete, Option.some_bind]
      rw [takeDigits_complete hms3 hmsd]
      simp

/-! ## Data model (`src/types.ts`)

Optional string properties are `Option String`; the source's duck-typed
`if (x)` presence checks on them are `strTruthy` (present and
non-empty).  Optional arrays iterate identically whether absent or
empty, so they are plain lists (except `FeedOptions.links`, which
`setLinks` assigns).  Optional objects and dates are `Option`s and are
truthy whenever present. -/

/-- C1 (code bug): for a `type="xhtml"` text construct that passed
validation, the renderer stores the content as a *text* node inside a
second, synthesized `<div>`, so serialization XML-escapes the stored
markup instead of inserting it as literal child markup. -/
theorem xhtml_content_rendered_escaped :
    validateTextConstruct envNone c1Construct "title" = Except.ok () ∧
    createTextConstructElement false c1Construct "title" =
      XmlNode.element "title" [("type", "xhtml")]
        [.element "div" [("xmlns", "http://www.w3.org/1999/xhtml")]
          [.text c1Construct.content]] ∧
    createContentElement false { content := c1Construct.content, type := some "xhtml" } =
      XmlNode.element "content" [("type", "xhtml")]
        [.element "div" [("xmlns", "http://www.w3.org/1999/xhtml")]
          [.text c1Construct.content]] ∧
    writeNode 0 (createTextConstructElement false c1Construct "title") =
      "<title type=\"xhtml\">\n  <div xmlns=\"http://www.w3.org/1999/xhtml\">" ++
        "&lt;div xmlns=\"http://www.w3.org/1999/xhtml\"&gt;Hello &lt;b&gt;World&lt;/b&gt;" ++
        "&lt;/div&gt;</div>\n</title>" := by
  refine ⟨rfl, rfl, rfl, ?_⟩
  rfl

/-! ## C5/C10: the content/src exclusivity checks -/

lemma src_msg_ne_neither (s : String) :
    "Invalid content src: " ++ s ≠ "Content must have either content or src" := by
  intro h
  have h1 : ("Invalid content src: " ++ s).data.head? = some 'I' := rfl
  rw [h] at h1
  cases h1

lemma src_msg_ne_both (s : String) :
    "Invalid content src: " ++ s ≠ "Content cannot have both content and src" := by
  intro h
  have h1 : ("Invalid content src: " ++ s).data.head? = some 'I' := rfl
  rw [h] at h1
  cases h1

/-- Which of the two exclusivity errors `validateContent` raises, as a
trichotomy on the truthiness of `content` and `src`. -/
lemma validateContent_cases (env : JsEnv) (c : Content) :
    (c.content = "" ∧ strTruthy c.src = false ∧
      validateContent env c = Except.error "Content must have either content or src") ∨
    (c.content ≠ "" ∧ strTruthy c.src = true ∧
      validateContent env c = Except.error "Content cannot have both content and src") ∨
    ((c.content = "" ↔ strTruthy c.src = true) ∧
      validateContent env c ≠ Except.error "Content must have either content or src" ∧
      validateContent env c ≠ Except.error "Content cannot have both content and src") := by
  by_cases hc : c.content = "" <;> by_cases hs : strTruthy c.src = true
  · -- empty content, truthy src: both guards fall through
    refine Or.inr (Or.inr ⟨by simp [hc, hs], ?_⟩)
    rw [validateContent, if_neg (by simp [hc, hs]), if_neg (by simp [hc])]
    split_ifs with h3 h4 h5 h6 h7
    · exact ⟨fun h => src_msg_ne_neither _ (Except.error.inj h),
        fun h => src_msg_ne_both _ (Except.error.inj h)⟩
    · exact ⟨by simp, by simp⟩
    · exact ⟨by simp, by simp⟩
    · exact ⟨by simp, by simp⟩
    · exact ⟨by simp, by simp⟩
    · exact ⟨by simp, by simp⟩
  · -- empty content, falsy src: the neither-supplied error
    exact Or.inl ⟨hc, by simpa using hs,
      by rw [validateContent, if_pos (by simp [hc, Bool.eq_false_iff.mpr hs])]⟩
  · -- non-empty content, truthy src: the both-supplied error
    exact Or.inr (Or.inl ⟨hc, hs,
      by rw [validateContent, if_neg (by simp [hc]), if_pos (by simp [hc, hs])]⟩)
  · -- non-empty content, falsy src: both guards fall through
    refine Or.inr (Or.inr ⟨by simp [hc, hs], ?_⟩)
    rw [validateContent, if_neg (by simp [hc]), if_neg (by simp [hs])]
    split_ifs with h3 h4 h5 h6 h7
    · exact ⟨fun h => src_msg_ne_neither _ (Except.error.inj h),
        fun h => src_msg_ne_both _ (Except.error.inj h)⟩
    · exact ⟨by simp, by simp⟩
    · exact ⟨by simp, by simp⟩
    · exact ⟨by simp, by simp⟩
    · exact ⟨by simp, by simp⟩
    · exact ⟨by simp, by simp⟩

/-- C5: `validateContent` raises the neither-supplied error exactly when
both `content` and `src` are absent (JS-falsy), raises the both-supplied
error exactly when both are supplied, and passes the two exclusivity
checks exactly when exactly one of the two is supplied. -/
theorem validateContent_exclusivity (env : JsEnv) (c : Content) :
    (validateContent env c = Except.error "Content must have either content or src" ↔
      c.content = "" ∧ strTruthy c.src = false) ∧
    (validateContent env c = Except.error "Content cannot have both content and src" ↔
      c.content ≠ "" ∧ strTruthy c.src = true) ∧
    (((c.content ≠ "") ↔ strTruthy c.src = false) ↔
      (validateContent env c ≠ Except.error "Content must have either content or src" ∧
       validateContent env c ≠ Except.error "Content cannot have both content and src")) := by
  rcases validateContent_cases env c with ⟨hc, hs, hv⟩ | ⟨hc, hs, hv⟩ | ⟨hiff, hn, hb⟩
  · refine ⟨⟨fun _ => ⟨hc, hs⟩, fun _ => hv⟩, ⟨fun h => absurd (hv ▸ h) (by simp), ?_⟩, ?_⟩
    · rintro ⟨hc', _⟩
      exact absurd hc hc'
    · constructor
      · intro hx
        exact absurd hc (hx.mpr (by simp [hs]))
      · rintro ⟨hn, _⟩
        exact absurd hv hn
  · refine ⟨⟨fun h => absurd (hv ▸ h) (by simp), ?_⟩, ⟨fun _ => ⟨hc, hs⟩, fun _ => hv⟩, ?_⟩
    · rintro ⟨hc', _⟩
      exact absurd hc' hc
    · constructor
      · intro hx
        exact absurd hs (by simp [hx.mp hc])
      · rintro ⟨_, hb⟩
        exact absurd hv hb
  · refine ⟨⟨fun h => absurd h hn, ?_⟩, ⟨fun h => absurd h hb, ?_⟩, ?_⟩
    · rintro ⟨hc, hs⟩
      exact absurd (hiff.mp hc) (by simp [hs])
    · rintro ⟨hc, hs⟩
      exact absurd (hiff.mpr hs) hc
    · constructor
      · intro _
        exact ⟨hn, hb⟩
      · intro _
        constructor
        · intro hc
          cases hsv : strTruthy c.src
          · rfl
          · exact absurd (hiff.mpr hsv) hc
        · intro hs hc
          rw [hiff.mp hc] at hs
          cases hs

/-- C10 counterexample: a content construct with `content = ""` and a
valid `src` on which validation does *not* succeed — the xhtml
structural check still fires. -/
theorem empty_content_with_src_can_fail :
    isValidIri envNone "http://a/" = true ∧
    validateContent envNone c10Bad =
      Except.error "XHTML content must contain a single div element" := by
  exact ⟨rfl, rfl⟩

/-- C10 (amended): content validation treats an empty `content` string
as absent in the exclusivity checks — with `content = ""` and a
supplied `src` neither exclusivity error fires (the both-supplied error
fires only for a non-empty `content`), and with `content = ""` and no
`src` validation fails with the neither-supplied error. -/
theorem empty_content_exclusivity (env : JsEnv) (c : Content) (hc : c.content = "") :
    (strTruthy c.src = true →
      validateContent env c ≠ Except.error "Content must have either content or src" ∧
      validateContent env c ≠ Except.error "Content cannot have both content and src") ∧
    (strTruthy c.src = false →
      validateContent env c = Except.error "Content must have either content or src") := by
  constructor
  · intro hs
    rcases validateContent_cases env c with ⟨_, hs', _⟩ | ⟨hc', _, _⟩ | ⟨_, hn, hb⟩
    · rw [hs] at hs'
      cases hs'
    · exact absurd hc hc'
    · exact ⟨hn, hb⟩
  · intro hs
    rcases validateContent_cases env c with ⟨_, _, hv⟩ | ⟨hc', _, _⟩ | ⟨hiff, _, _⟩
    · exact hv
    · exact absurd hc hc'
    · rw [hiff.mp hc] at hs
      cases hs

/-- Witness for the amended C10 at a concrete construct. -/
theorem empty_content_exclusivity_witness :
    (c10Bad.content = "") ∧
    ((strTruthy c10Bad.src = true →
      validateContent envNone c10Bad ≠ Except.error "Content must have either content or src" ∧
      validateContent envNone c10Bad ≠ Except.error "Content cannot have both content and src") ∧
    (strTruthy c10Bad.src = false →
      validateContent envNone c10Bad = Except.error "Content must have either content or src")) :=
  ⟨rfl, empty_content_exclusivity envNone c10Bad rfl⟩

/-! ## C6: failed validation leaves prior state untouched -/

/-- C6: `addEntry` and `setLinks` are all-or-nothing — when validation
raises, the feed state (its entry collection, its links) is exactly the
pre-call state. -/
theorem failed_validation_is_atomic (env : JsEnv) (f : RawAtomFeed) :
    (∀ entry e, (addEntry env f entry).2 = Except.error e → (addEntry env f entry).1 = f) ∧
    (∀ links e, (setLinks env f links).2 = Except.error e → (setLinks env f links).1 = f) := by
  constructor
  · intro entry e h
    rw [addEntry] at h ⊢
    cases hv : validateEntry env entry with
    | error msg => rfl
    | ok u =>
      cases u
      rw [hv] at h
      simp at h
  · intro links e h
    rw [setLinks] at h ⊢
    cases hv : validateLinksList env links with
    | error msg => rfl
    | ok ls =>
      rw [hv] at h
      simp at h

/-- Witness for C6: an entry with an empty id and a link with an empty
href are rejected, and the state is unchanged. -/
theorem failed_validation_is_atomic_witness :
    ((addEntry envNone c6Feed { id := "", title := { content := "T" }, updated := some 0 }).2 =
      Except.error "Entry id is required") ∧
    ((addEntry envNone c6Feed { id := "", title := { content := "T" }, updated := some 0 }).1 =
      c6Feed) ∧
    ((setLinks envNone c6Feed [{ href := "" }]).2 = Except.error "Link href is required") ∧
    ((setLinks envNone c6Feed [{ href := "" }]).1 = c6Feed) := by
  refine ⟨rfl, ?_, rfl, ?_⟩
  · exact (failed_validation_is_atomic envNone c6Feed).1 _ "Entry id is required" rfl
  · exact (failed_validation_is_atomic envNone c6Feed).2 _ "Link href is required" rfl

/-! ## C7: `getEntries` returns a frozen defensive copy -/

/-- C7: `getEntries` returns a frozen copy of the entry collection:
the returned array is frozen, pushing onto it throws a `TypeError` (and
produces no array), its data is a copy of the current entries, and the
call leaves the feed state unchanged — so no operation on the returned
value can alter a later `getEntries` result, which always equals the
feed's own entries. -/
theorem getEntries_frozen_snapshot (f : RawAtomFeed) :
    ((getEntries f).1.isFrozen = true) ∧
    ((getEntries f).1.data = f.entries) ∧
    ((getEntries f).2 = f) ∧
    (∀ x, arrayPush (getEntries f).1 x =
      Except.error "TypeError: Cannot add property, object is not extensible") ∧
    (∀ x w, arrayPush (getEntries f).1 x ≠ Except.ok w) ∧
    ((getEntries (getEntries f).2).1.data = f.entries) := by
  refine ⟨rfl, rfl, rfl, fun x => rfl, fun x w h => ?_, rfl⟩
  cases h

/-! ## C8: `removeEntry` -/

/-- C8: `removeEntry` filters out every entry whose id matches
(duplicates included), keeps the others in relative order (the result is
a sublist of the original), and returns `true` exactly when the length
changed, equivalently exactly when some entry had the id; a
non-matching id returns `false` and leaves the state unchanged. -/
theorem removeEntry_filters_by_id (f : RawAtomFeed) (entryId : String) :
    ((removeEntry f entryId).1.entries = f.entries.filter fun e => e.id != entryId) ∧
    ((removeEntry f entryId).1.entries.Sublist f.entries) ∧
    ((removeEntry f entryId).2 = true ↔
      (removeEntry f entryId).1.entries.length ≠ f.entries.length) ∧
    ((removeEntry f entryId).2 = true ↔ ∃ e ∈ f.entries, e.id = entryId) ∧
    ((¬ ∃ e ∈ f.entries, e.id = entryId) →
      (removeEntry f entryId).2 = false ∧ (removeEntry f entryId).1 = f) := by
  have hfil : (removeEntry f entryId).1.entries = f.entries.filter fun e => e.id != entryId :=
    rfl
  have hlen : ((removeEntry f entryId).2 = true ↔
      (removeEntry f entryId).1.entries.length ≠ f.entries.length) := by
    rw [removeEntry]
    simp [bne_iff_ne]
  have hex : ((removeEntry f entryId).2 = true ↔ ∃ e ∈ f.entries, e.id = entryId) := by
    rw [hlen, hfil]
    have hle := List.length_filter_le (fun e => e.id != entryId) f.entries
    constructor
    · intro hne
      have hlt : (f.entries.filter fun e => e.id != entryId).length < f.entries.length := by
        omega
      obtain ⟨e, he, hp⟩ := List.length_filter_lt_length_iff_exists.mp hlt
      exact ⟨e, he, by simpa using hp⟩
    · rintro ⟨e, he, hp⟩
      have hlt : (f.entries.filter fun e => e.id != entryId).length < f.entries.length :=
        List.length_filter_lt_length_iff_exists.mpr ⟨e, he, by simp [hp]⟩
      omega
  refine ⟨hfil, by rw [hfil]; exact List.filter_sublist _, hlen, hex, ?_⟩
  intro hnone
  have hb : (removeEntry f entryId).2 = false := by
    cases hbv : (removeEntry f entryId).2
    · rfl
    · exact absurd (hex.mp hbv) hnone
  refine ⟨hb, ?_⟩
  have : f.entries.filter (fun e => e.id != entryId) = f.entries :=
    List.filter_eq_self.mpr fun e he => by
      simp only [bne_iff_ne, ne_eq, decide_eq_true_eq]
      exact fun hid => hnone ⟨e, he, hid⟩
  show { f with entries := f.entries.filter fun e => e.id != entryId } = f
  rw [this]

/-- Witness for C8: removing a non-existent id returns false and leaves
the collection unchanged. -/
theorem removeEntry_filters_by_id_witness :
    (¬ ∃ e ∈ c6Feed.entries, e.id = "nope") ∧
    ((removeEntry c6Feed "nope").2 = false ∧ (removeEntry c6Feed "nope").1 = c6Feed) :=
  ⟨by decide, (removeEntry_filters_by_id c6Feed "nope").2.2.2.2 (by decide)⟩

/-! ## C3: render order of entries -/

lemma filter_orderedInsert_pos (p : Entry → Bool) (a : Entry) (l : List Entry)
    (hpa : p a = true) (himp : ∀ b ∈ l, ¬ updatedGE a b → p b = false) :
    (l.orderedInsert updatedGE a).filter p = a :: l.filter p := by
  induction l with
  | nil => simp [List.orderedInsert, hpa]
  | cons b m ih =>
    rw [List.orderedInsert]
    by_cases hr : updatedGE a b
    · rw [if_pos hr, List.filter_cons, List.filter_cons, hpa]
      simp
    · rw [if_neg hr, List.filter_cons, List.filter_cons,
        himp b (List.mem_cons_self _ _) hr,
        ih fun x hx hnr => himp x (List.mem_cons_of_mem _ hx) hnr]
      simp

lemma filter_orderedInsert_neg (p : Entry → Bool) (a : Entry) (l : List Entry)
    (hpa : p a = false) :
    (l.orderedInsert updatedGE a).filter p = l.filter p := by
  induction l with
  | nil => simp [List.orderedInsert, hpa]
  | cons b m ih =>
    rw [List.orderedInsert]
    by_cases hr : updatedGE a b
    · rw [if_pos hr, List.filter_cons, hpa]
      simp
    · rw [if_neg hr, List.filter_cons, ih, List.filter_cons]

/-- Stability of the sort, phrased per timestamp: the entries with any
given `updated` time keep their original relative order. -/
lemma filter_insertionSort_time (t : Int) (l : List Entry) :
    ((l.insertionSort updatedGE).filter fun e => updatedTime e == t) =
      l.filter fun e => updatedTime e == t := by
  induction l with
  | nil => rfl
  | cons a m ih =>
    rw [List.insertionSort]
    by_cases hpa : (updatedTime a == t) = true
    · have himp : ∀ b ∈ List.insertionSort updatedGE m, ¬updatedGE a b →
          (updatedTime b == t) = false := by
        intro b _ hnr
        simp only [updatedGE, not_le] at hnr
        simp only [beq_iff_eq] at hpa
        simp only [beq_eq_false_iff_ne, ne_eq]
        omega
      rw [filter_orderedInsert_pos _ a _ hpa himp, ih, List.filter_cons, hpa]
      simp
    · rw [filter_orderedInsert_neg _ a _ (by simpa using hpa), ih, List.filter_cons,
        Bool.eq_false_iff.mpr hpa]
      simp

/-- C3: with sorting enabled the rendered entry list is a permutation of
the stored entries, sorted by descending `updated` time, with entries of
equal timestamp in their original relative order; with sorting disabled
it is exactly the stored list; and rendering returns the feed state (and
so the stored collection) unchanged, the rendered root ending with the
entry elements in exactly this order. -/
theorem entries_render_order (f : RawAtomFeed)
    (h : ∀ e ∈ f.entries, e.updated.isSome = true) :
    (f.sortEntries = true →
      (entriesToAdd f).Sorted updatedGE ∧
      (entriesToAdd f).Perm f.entries ∧
      ∀ t : Int, ((entriesToAdd f).filter fun e => updatedTime e == t) =
        f.entries.filter fun e => updatedTime e == t) ∧
    (f.sortEntries = false → entriesToAdd f = f.entries) ∧
    ((toXml f).2 = f) ∧
    (∀ d, buildDoc f = Except.ok d →
      ∃ updatedStr entryElems,
        (entriesToAdd f).mapM (createEntryElement f.usePrefixedNames) =
          Except.ok entryElems ∧
        d.elements.getLast? = some (.element (getElementName f.usePrefixedNames "feed")
          (feedAttributes f) (feedStaticElements f updatedStr ++ entryElems))) := by
  refine ⟨?_, ?_, rfl, ?_⟩
  · intro hs
    have he : entriesToAdd f = f.entries.insertionSort updatedGE := by
      rw [entriesToAdd, if_pos hs, getSortedEntries, hs]
      rfl
    rw [he]
    exact ⟨List.sorted_insertionSort updatedGE f.entries,
      List.perm_insertionSort updatedGE f.entries,
      fun t => filter_insertionSort_time t f.entries⟩
  · intro hs
    rw [entriesToAdd, hs]
    rfl
  · intro d hd
    rw [buildDoc] at hd
    cases hfd : formatDate f.options.updated with
    | error e =>
      rw [hfd] at hd
      cases hd
    | ok updatedStr =>
      rw [hfd] at hd
      cases hme : (entriesToAdd f).mapM (createEntryElement f.usePrefixedNames) with
      | error e =>
        rw [hme] at hd
        cases hd
      | ok entryElems =>
        rw [hme] at hd
        cases hd
        refine ⟨updatedStr, entryElems, rfl, ?_⟩
        cases f.stylesheet <;> simp

/-- Witness for C3: with sorting enabled the render order is descending
by `updated` with the tie kept in insertion order, and rendering leaves
the state unchanged. -/
theorem entries_render_order_witness :
    (∀ e ∈ c3Feed.entries, e.updated.isSome = true) ∧
    entriesToAdd c3Feed = [c3e2, c3e3, c3e1] ∧ (toXml c3Feed).2 = c3Feed := by
  have h := entries_render_order c3Feed (by decide)
  exact ⟨by decide, by decide, h.2.2.1⟩

/-! ## C4: RFC 3339 date acceptance and render-time enforcement -/

/-- C4: `isValidRfc3339Date` accepts exactly the valid instants whose
ISO-8601 UTC rendering has the shape `YYYY-MM-DDTHH:MM:SS(.mmm)?Z`;
`formatDate` throws exactly on the dates this check rejects; and a feed
whose stored `updated` date fails the check makes rendering fail rather
than emit output. -/
theorem rfc3339_date_check (d : JSDate) (f : RawAtomFeed) :
    (isValidRfc3339Date d = true ↔ ∃ t : Int, d = some t ∧ Rfc3339Shape (toISOString t)) ∧
    ((∃ e, formatDate d = Except.error e) ↔ isValidRfc3339Date d = false) ∧
    (isValidRfc3339Date f.options.updated = false → ∀ x, (toXml f).1 ≠ Except.ok x) := by
  refine ⟨?_, ?_, ?_⟩
  · cases d with
    | none =>
      simp only [isValidRfc3339Date, Bool.false_eq_true, false_iff]
      rintro ⟨t, ht, _⟩
      cases ht
    | some t =>
      simp only [isValidRfc3339Date]
      constructor
      · intro h
        exact ⟨t, rfl, (matchRfc3339Pattern_iff _).mp h⟩
      · rintro ⟨t2, ht2, hsh⟩
        cases ht2
        exact (matchRfc3339Pattern_iff _).mpr hsh
  · cases d with
    | none => exact ⟨fun _ => rfl, fun _ => ⟨"Invalid RFC 3339 date", rfl⟩⟩
    | some t =>
      have heq : formatDate (some t) =
          if isValidRfc3339Date (some t) = false then Except.error "Invalid RFC 3339 date"
          else Except.ok (toISOString t) := rfl
      rw [heq]
      by_cases hv : isValidRfc3339Date (some t) = false
      · rw [if_pos hv]
        exact ⟨fun _ => hv, fun _ => ⟨"Invalid RFC 3339 date", rfl⟩⟩
      · rw [if_neg hv]
        constructor
        · rintro ⟨e, he⟩
          cases he
        · intro h
          exact absurd h hv
  · intro hv x
    rw [toXml, buildDoc]
    cases hfd : formatDate f.options.updated with
    | error e => simp [Except.map]
    | ok s =>
      exfalso
      cases hu : f.options.updated with
      | none =>
        rw [hu] at hfd
        cases hfd
      | some t =>
        rw [hu] at hfd hv
        have hfd2 : (if isValidRfc3339Date (some t) = false then
            (Except.error "Invalid RFC 3339 date" : Except String String)
          else Except.ok (toISOString t)) = Except.ok s := hfd
        rw [if_pos hv] at hfd2
        cases hfd2

/-- Witness for C4: an invalid stored date (NaN time value) is rejected
and makes rendering fail. -/
theorem rfc3339_date_check_witness :
    (isValidRfc3339Date (c4BadFeed).options.updated = false) ∧
    ((∃ e, formatDate none = Except.error e) ↔ isValidRfc3339Date none = false) ∧
    ((toXml c4BadFeed).1 ≠ Except.ok "") := by
  have h := rfc3339_date_check none c4BadFeed
  exact ⟨rfl, h.2.1, h.2.2 rfl ""⟩

/-! ## C9: the stylesheet processing instruction -/

lemma hasInstruction_element (n : String) (a : List (String × String)) (c : List XmlNode) :
    hasInstruction (.element n a c) = hasInstructionList c := rfl

lemma hasInstructionList_append (a b : List XmlNode) :
    hasInstructionList (a ++ b) = (hasInstructionList a || hasInstructionList b) := by
  induction a with
  | nil => rfl
  | cons c cs ih =>
    show (hasInstruction c || hasInstructionList (cs ++ b)) = _
    rw [ih]
    simp [hasInstructionList, Bool.or_assoc]

lemma hasInstructionList_map_false {α : Type} {g : α → XmlNode}
    (h : ∀ x, hasInstruction (g x) = false) (l : List α) :
    hasInstructionList (l.map g) = false := by
  induction l with
  | nil => rfl
  | cons x xs ih =>
    show (hasInstruction (g x) || hasInstructionList (xs.map g)) = false
    rw [h x, ih]
    rfl

lemma hasInstruction_simpleTextElement (u : Bool) (n t : String) :
    hasInstruction (simpleTextElement u n t) = false := rfl

lemma hasInstruction_textConstruct (u : Bool) (tc : TextConstruct) (n : String) :
    hasInstruction (createTextConstructElement u tc n) = false := by
  rw [createTextConstructElement]
  by_cases h : tc.type == some "xhtml"
  · rw [if_pos h]
    rfl
  · rw [if_neg h]
    rfl

lemma hasInstruction_person (u : Bool) (p : Person) (n : String) :
    hasInstruction (createPersonElement u p n) = false := by
  rw [createPersonElement, hasInstruction_element, hasInstructionList_append,
    hasInstructionList_append]
  cases hp : strTruthy p.email <;> cases hu : strTruthy p.uri <;>
    simp [hasInstructionList, hasInstruction_simpleTextElement]

lemma hasInstruction_category (u : Bool) (c : Category) :
    hasInstruction (createCategoryElement u c) = false := rfl

lemma hasInstruction_link (u : Bool) (l : Link) :
    hasInstruction (createLinkElement u l) = false := rfl

lemma hasInstruction_content (u : Bool) (c : Content) :
    hasInstruction (createContentElement u c) = false := by
  rw [createContentElement, hasInstruction_element]
  by_cases hs : strTruthy c.src
  · simp [hs, hasInstructionList]
  · by_cases ht : c.type == some "xhtml" <;> simp [hs, ht, hasInstructionList, hasInstruction]

lemma hasInstruction_entry (u : Bool) (e : Entry) (x : XmlNode)
    (h : createEntryElement u e = Except.ok x) : hasInstruction x = false := by
  rw [createEntryElement] at h
  cases hfd : formatDate e.updated with
  | error msg =>
    rw [hfd] at h
    cases h
  | ok updatedStr =>
    rw [hfd] at h
    cases hpp : (match e.published with
        | some d =>
          match formatDate d with
          | Except.error e => Except.error e
          | Except.ok s => Except.ok [simpleTextElement u "published" s]
        | none => Except.ok ([] : List XmlNode)) with
    | error msg =>
      rw [hpp] at h
      cases h
    | ok publishedPart =>
      rw [hpp] at h
      cases h
      have hppf : hasInstructionList publishedPart = false := by
        cases hep : e.published with
        | none =>
          rw [hep] at hpp
          cases hpp
          rfl
        | some d =>
          rw [hep] at hpp
          have hpp2 : (match formatDate d with
              | Except.error e => (Except.error e : Except String (List XmlNode))
              | Except.ok s => Except.ok [simpleTextElement u "published" s]) =
              Except.ok publishedPart := hpp
          cases hfd2 : formatDate d with
          | error msg2 =>
            rw [hfd2] at hpp2
            cases hpp2
          | ok s =>
            rw [hfd2] at hpp2
            cases hpp2
            rfl
      have h1 : hasInstructionList [simpleTextElement u "id" e.id,
          createTextConstructElement u e.title "title",
          simpleTextElement u "updated" updatedStr] = false := by
        simp [hasInstructionList, hasInstruction_simpleTextElement,
          hasInstruction_textConstruct]
      have h2 : hasInstructionList (match e.content with
          | some c => [createContentElement u c]
          | none => []) = false := by
        cases e.content with
        | none => rfl
        | some c => simp [hasInstructionList, hasInstruction_content]
      have h3 : hasInstructionList (match e.rights with
          | some r => [createTextConstructElement u r "rights"]
          | none => []) = false := by
        cases e.rights with
        | none => rfl
        | some r => simp [hasInstructionList, hasInstruction_textConstruct]
      have h4 : hasInstructionList (if strTruthy e.source then
          [simpleTextElement u "source" (e.source.getD "")] else []) = false := by
        cases hsv : strTruthy e.source <;>
          simp [hasInstructionList, hasInstruction_simpleTextElement]
      have h5 : hasInstructionList (match e.summary with
          | some sm => [createTextConstructElement u sm "summary"]
          | none => []) = false := by
        cases e.summary with
        | none => rfl
        | some sm => simp [hasInstructionList, hasInstruction_textConstruct]
      rw [hasInstruction_element]
      simp only [hasInstructionList_append,
        hasInstructionList_map_false (fun a => hasInstruction_person u a "author"),
        hasInstructionList_map_false (fun c => hasInstruction_person u c "contributor"),
        hasInstructionList_map_false (hasInstruction_category u),
        hasInstructionList_map_false (hasInstruction_link u),
        hppf, h1, h2, h3, h4, h5, Bool.or_self, Bool.or_false, Bool.false_or]

lemma hasInstructionList_static (f : RawAtomFeed) (updatedStr : String) :
    hasInstructionList (feedStaticElements f updatedStr) = false := by
  rw [feedStaticElements]
  have h1 : hasInstructionList [simpleTextElement f.usePrefixedNames "id" f.options.id,
      createTextConstructElement f.usePrefixedNames f.options.title "title",
      simpleTextElement f.usePrefixedNames "updated" updatedStr] = false := by
    simp [hasInstructionList, hasInstruction_simpleTextElement, hasInstruction_textConstruct]
  have hg : hasInstructionList (match f.options.generator with
      | some g =>
        [XmlNode.element (getElementName f.usePrefixedNames "generator")
          ((if strTruthy g.version then [("version", g.version.getD "")] else []) ++
           (if strTruthy g.uri then [("uri", g.uri.getD "")] else []))
          [.text g.name]]
      | none => []) = false := by
    cases f.options.generator with
    | none => rfl
    | some g => rfl
  have hic : hasInstructionList (if strTruthy f.options.icon then
      [simpleTextElement f.usePrefixedNames "icon" (f.options.icon.getD "")] else []) =
      false := by
    cases hi : strTruthy f.options.icon <;>
      simp [hasInstructionList, hasInstruction_simpleTextElement]
  have hlk : hasInstructionList (match f.options.links with
      | some ls => ls.map (createLinkElement f.usePrefixedNames)
      | none => []) = false := by
    cases f.options.links with
    | none => rfl
    | some ls => exact hasInstructionList_map_false (hasInstruction_link _) ls
  have hlg : hasInstructionList (if strTruthy f.options.logo then
      [simpleTextElement f.usePrefixedNames "logo" (f.options.logo.getD "")] else []) =
      false := by
    cases hl : strTruthy f.options.logo <;>
      simp [hasInstructionList, hasInstruction_simpleTextElement]
  have hr : hasInstructionList (match f.options.rights with
      | some r => [createTextConstructElement f.usePrefixedNames r "rights"]
      | none => []) = false := by
    cases f.options.rights with
    | none => rfl
    | some r => simp [hasInstructionList, hasInstruction_textConstruct]
  have hsub : hasInstructionList (match f.options.subtitle with
      | some st => [createTextConstructElement f.usePrefixedNames st "subtitle"]
      | none => []) = false := by
    cases f.options.subtitle with
    | none => rfl
    | some st => simp [hasInstructionList, hasInstruction_textConstruct]
  simp only [hasInstructionList_append,
    hasInstructionList_map_false (fun a => hasInstruction_person f.usePrefixedNames a "author"),
    hasInstructionList_map_false
      (fun c => hasInstruction_person f.usePrefixedNames c "contributor"),
    hasInstructionList_map_false (hasInstruction_category f.usePrefixedNames),
    h1, hg, hic, hlk, hlg, hr, hsub, Bool.or_self, Bool.or_false, Bool.false_or]

lemma mapM_entries_no_instruction {u : Bool} :
    ∀ {l : List Entry} {l' : List XmlNode},
      l.mapM (createEntryElement u) = Except.ok l' → hasInstructionList l' = false := by
  intro l
  induction l with
  | nil =>
    intro l' h
    rw [List.mapM_nil] at h
    cases h
    rfl
  | cons e es ih =>
    intro l' h
    rw [List.mapM_cons] at h
    cases hce : createEntryElement u e with
    | error msg =>
      rw [hce] at h
      cases h
    | ok x =>
      rw [hce] at h
      cases hme : es.mapM (createEntryElement u) with
      | error msg =>
        rw [hme] at h
        cases h
      | ok xs =>
        rw [hme] at h
        cases h
        show (hasInstruction x || hasInstructionList xs) = false
        rw [hasInstruction_entry u e x hce, ih hme]
        rfl

/-- C9 (amended): when a stylesheet is configured, the rendered document
is exactly one `xml-stylesheet` processing instruction followed by the
root feed element (and the root contains no further instruction), the
instruction's `type` pseudo-attribute being the configured type when
that is a non-empty string and `"text/xsl"` when it is omitted *or
empty*, and its `href` the configured href percent-encoded; with no
stylesheet configured, the document is the root element alone with no
instruction anywhere. -/
theorem stylesheet_instruction_rendering (f : RawAtomFeed) (d : XmlDoc)
    (h : buildDoc f = Except.ok d) :
    (∀ st, f.stylesheet = some st →
      ∃ root, d.elements = [stylesheetInstruction st, root] ∧
        root.isElement = true ∧ hasInstruction root = false ∧
        stylesheetInstruction st = .instruction "xml-stylesheet"
          ("type=\"" ++
            (if strTruthy st.type then st.type.getD "" else "text/xsl") ++
            "\" href=\"" ++ encodeURI st.href ++ "\"")) ∧
    (f.stylesheet = none →
      ∃ root, d.elements = [root] ∧ root.isElement = true ∧
        hasInstruction root = false) := by
  rw [buildDoc] at h
  cases hfd : formatDate f.options.updated with
  | error e =>
    rw [hfd] at h
    cases h
  | ok updatedStr =>
    rw [hfd] at h
    cases hme : (entriesToAdd f).mapM (createEntryElement f.usePrefixedNames) with
    | error e =>
      rw [hme] at h
      cases h
    | ok entryElems =>
      rw [hme] at h
      cases h
      have hroot : hasInstruction (XmlNode.element
          (getElementName f.usePrefixedNames "feed") (feedAttributes f)
          (feedStaticElements f updatedStr ++ entryElems)) = false := by
        rw [hasInstruction_element, hasInstructionList_append,
          hasInstructionList_static, mapM_entries_no_instruction hme]
        rfl
      constructor
      · intro st hst
        rw [hst]
        refine ⟨_, rfl, rfl, hroot, ?_⟩
        rw [stylesheetInstruction]
        cases ht : st.type with
        | none => rfl
        | some ty =>
          by_cases hty : ty = ""
          · simp [strOrDefault, strTruthy, hty]
          · simp [strOrDefault, strTruthy, hty]
      · intro hst
        rw [hst]
        exact ⟨_, rfl, rfl, hroot⟩

/-- C9 counterexample: a configured (present, non-omitted) stylesheet
`type` of `""` is rendered as `text/xsl`, not as the configured value — 
JS falsiness, not mere absence, triggers the default. -/
theorem stylesheet_empty_type_defaults :
    c9Bad.stylesheet = some { href := "s.xsl", type := some "" } ∧
    (buildDoc c9Bad).map (fun d => d.elements.head?) =
      Except.ok (some (.instruction "xml-stylesheet"
        "type=\"text/xsl\" href=\"s.xsl\"")) ∧
    ("text/xsl" : String) ≠ "" := by
  refine ⟨rfl, ?_, by decide⟩
  rfl

/-- Witness for C9 at a concrete feed. -/
theorem stylesheet_instruction_rendering_witness :
    buildDoc c9Good = Except.ok c9GoodDoc ∧
    ((∀ st, c9Good.stylesheet = some st →
      ∃ root, c9GoodDoc.elements = [stylesheetInstruction st, root] ∧
        root.isElement = true ∧ hasInstruction root = false ∧
        stylesheetInstruction st = .instruction "xml-stylesheet"
          ("type=\"" ++
            (if strTruthy st.type then st.type.getD "" else "text/xsl") ++
            "\" href=\"" ++ encodeURI st.href ++ "\"")) ∧
    (c9Good.stylesheet = none →
      ∃ root, c9GoodDoc.elements = [root] ∧ root.isElement = true ∧
        hasInstruction root = false)) :=
  ⟨rfl, stylesheet_instruction_rendering c9Good c9GoodDoc rfl⟩
